import Mathlib

/-!
Shallow embedding of the catode32 behavior scheduling and lifecycle engine:
`src/entities/behaviors/base.py`, `src/entities/behaviors/manager.py`,
`src/entities/behaviors/playing.py`, `src/entities/behaviors/stretching.py`
and `src/actions.py`.  Python floats are modelled as rationals, the
`GameContext` stat attributes as an association list from stat name to
value, the character's mutable `pose_name` as a string field, and the
manager together with its nine behavior instances as one system state
record `Sys` over which every manager operation is defined.
-/

namespace Catode

/-- Numeric values of the engine (Python floats) are modelled as rationals. -/
abbrev Q := ℚ

/-- The stat attributes of the `GameContext`: an association list from stat
name to value, mirroring Python attribute get/set by name. -/
abbrev Stats := List (String × Q)

/-- Reads a stat attribute, mirroring `getattr(context, stat, default)`:
the first entry with the given name, or the default when absent. -/
def getStat : Stats → String → Q → Q
  | [], _, d => d
  | p :: rest, k, d => if p.1 = k then p.2 else getStat rest k d

/-- Writes a stat attribute, mirroring `setattr(context, stat, v)`:
replaces the first entry with the given name, appending when absent. -/
def setStat : Stats → String → Q → Stats
  | [], k, v => [(k, v)]
  | p :: rest, k, v =>
      if p.1 = k then (k, v) :: rest else p :: setStat rest k v

/-- The `GameContext` as consumed by this subsystem: stat attributes plus
the one-shot `override_next_behavior` slot. -/
structure Ctx where
  stats : Stats
  override_next_behavior : Option String
deriving DecidableEq, Repr

/-- The only completion callback the codebase ever stores is the manager's
bound `_on_behavior_complete`; a stored callback is modelled as this tag. -/
inductive CbTag where
  | mgr
deriving DecidableEq, Repr

/-- Mutable state of one `BaseBehavior` instance: `_active`, `_phase`,
`_phase_timer`, `_pose_before`, `_on_complete`, `_progress`,
`_last_trigger_time`. -/
structure BState where
  active : Bool
  phase : Option String
  phase_timer : Q
  pose_before : Option String
  on_complete : Option CbTag
  progress : Q
  last_trigger_time : Q
deriving DecidableEq, Repr

/-- The concrete phase machine of a behavior: `base` is the default
`BaseBehavior.start`/`update` pair (phase `"start"`, no pose forcing, the
timer advances and nothing else happens); `threePhase` is the shape shared
by `PlayingBehavior` and `StretchingBehavior`: a first phase of duration
`d1` entered by `start` (which also forces `startPose`), a main phase of
duration `d2` (entered forcing `pose2`, recomputing progress each tick),
and a final phase of duration `d3` (entered forcing `pose3`) whose expiry
calls `stop(completed=True)`. -/
inductive Machine where
  | base
  | threePhase (ph1 : String) (d1 : Q) (startPose : String)
      (ph2 : String) (d2 : Q) (pose2 : String)
      (ph3 : String) (d3 : Q) (pose3 : String)
deriving DecidableEq, Repr

/-- Class-level descriptor of a behavior: `NAME`, `TRIGGER_STAT`,
`TRIGGER_THRESHOLD`, `TRIGGER_BELOW`, `PRIORITY`, `COOLDOWN`,
`STAT_EFFECTS`, `COMPLETION_BONUS` (the two maps kept in Python dict
literal order), plus its phase machine. -/
structure BSpec where
  name : String
  trigger_stat : Option String
  trigger_threshold : Q
  trigger_below : Bool
  priority : Int
  cooldown : Q
  stat_effects : List (String × Q)
  completion_bonus : List (String × Q)
  machine : Machine
deriving DecidableEq, Repr

/-- One registered behavior: its descriptor and its mutable state. -/
structure Behavior where
  spec : BSpec
  st : BState
deriving DecidableEq, Repr

/-- The whole system the manager operates on: the character's pose, the
context, the behaviors in registration order, the index of the idle
behavior, and the manager's clock and periodic-check state. -/
structure Sys where
  pose : String
  ctx : Ctx
  behaviors : List Behavior
  idleIdx : Nat
  current_time : Q
  check_interval : Q
  time_since_check : Q
deriving DecidableEq, Repr

/-- Clamp as written at every stat write site: `max(0, min(100, x))`. -/
def clamp01 (x : Q) : Q := max 0 (min 100 x)

/-- From `BaseBehavior.apply_stat_effects`: for each `(stat, rate)` of
`STAT_EFFECTS`, add `rate * dt` to the stat (default 0) clamped to
`[0, 100]`. -/
def applyStatEffects (b : BSpec) (st : Stats) (dt : Q) : Stats :=
  b.stat_effects.foldl
    (fun s p => setStat s p.1 (clamp01 (getStat s p.1 0 + p.2 * dt))) st

/-- From `BaseBehavior.apply_completion_bonus`: for each `(stat, bonus)` of
`COMPLETION_BONUS`, add `bonus * progress` to the stat (default 0) clamped
to `[0, 100]`. -/
def applyCompletionBonus (b : BSpec) (st : Stats) (progress : Q) : Stats :=
  b.completion_bonus.foldl
    (fun s p => setStat s p.1 (clamp01 (getStat s p.1 0 + p.2 * progress))) st

/-- From `BaseBehavior.can_trigger`: false while the cooldown since
`_last_trigger_time` has not elapsed; false when no trigger stat is
configured (Python truthiness also rejects an empty string); otherwise the
named stat (default 50) is compared strictly against the threshold in the
configured direction. -/
def canTrigger (b : Behavior) (c : Ctx) (now : Q) : Bool :=
  if now - b.st.last_trigger_time < b.spec.cooldown then false
  else
    match b.spec.trigger_stat with
    | none => false
    | some t =>
        if t = "" then false
        else
          let v := getStat c.stats t 50
          if b.spec.trigger_below then decide (v < b.spec.trigger_threshold)
          else decide (v > b.spec.trigger_threshold)

/-- From `BehaviorManager._on_behavior_complete`: when `completed`, scan
the registered behaviors in order for the first inactive one with a
non-empty `COMPLETION_BONUS` and apply that behavior's bonus scaled by the
reported progress. -/
def findBonusTarget : List Behavior → Option BSpec
  | [] => none
  | b :: bs =>
      if !b.st.active && !b.spec.completion_bonus.isEmpty then some b.spec
      else findBonusTarget bs

/-- The manager's completion handler applied to the system state. -/
def Sys.onBehaviorComplete (s : Sys) (completed : Bool) (progress : Q) : Sys :=
  if completed then
    match findBonusTarget s.behaviors with
    | some spec =>
        { s with ctx := { s.ctx with
            stats := applyCompletionBonus spec s.ctx.stats progress } }
    | none => s
  else s

/-- From `BaseBehavior.stop`: a no-op when inactive; otherwise clears the
active flag, restores the snapshotted pose only when completed naturally,
clears the snapshot and the stored callback, and finally invokes the
callback (the manager's completion handler) with the final progress. -/
def Sys.stopB (s : Sys) (i : Nat) (completed : Bool) : Sys :=
  match s.behaviors[i]? with
  | none => s
  | some b =>
      if !b.st.active then s
      else
        let pose' := match b.st.pose_before with
          | some p => if p ≠ "" ∧ completed then p else s.pose
          | none => s.pose
        let b' : Behavior := { b with st := { b.st with
          active := false, pose_before := none, on_complete := none } }
        let s' := { s with pose := pose', behaviors := s.behaviors.set i b' }
        match b.st.on_complete with
        | some .mgr => s'.onBehaviorComplete completed b.st.progress
        | none => s'

/-- The instance state written by an effective `start`: active, first
phase entered, timer and progress reset, current pose snapshotted,
callback stored; only the cooldown timestamp survives. -/
def startedSt (st : BState) (ph pose : String) (cb : Option CbTag) : BState :=
  { active := true, phase := some ph, phase_timer := 0,
    pose_before := some pose, on_complete := cb, progress := 0,
    last_trigger_time := st.last_trigger_time }

/-- The `start` method of a behavior instance: a no-op when already active;
otherwise activates it, resets phase, timer and progress, snapshots the
character's current pose, stores the callback, and (for the concrete
three-phase behaviors) enters the first phase forcing its start pose. -/
def Sys.startB (s : Sys) (i : Nat) (cb : Option CbTag) : Sys :=
  match s.behaviors[i]? with
  | none => s
  | some b =>
      if b.st.active then s
      else
        match b.spec.machine with
        | .base =>
            let b' : Behavior := { b with st := startedSt b.st "start" s.pose cb }
            { s with behaviors := s.behaviors.set i b' }
        | .threePhase ph1 _ startPose _ _ _ _ _ _ =>
            let b' : Behavior := { b with st := startedSt b.st ph1 s.pose cb }
            { s with pose := startPose, behaviors := (s.behaviors.set i b') }

/-- The `update(dt)` method of a behavior instance: a no-op when inactive;
always advances the phase timer; a three-phase machine then follows the
`if`/`elif` chain of `PlayingBehavior.update` / `StretchingBehavior.update`
(at most one transition per call, progress recomputed inside the main
phase before the expiry test, final-phase expiry calling
`stop(completed=True)`). -/
def Sys.updateB (s : Sys) (i : Nat) (dt : Q) : Sys :=
  match s.behaviors[i]? with
  | none => s
  | some b =>
      if !b.st.active then s
      else
        let t := b.st.phase_timer + dt
        match b.spec.machine with
        | .base =>
            { s with behaviors :=
                s.behaviors.set i ({ b with st := { b.st with phase_timer := t } }) }
        | .threePhase ph1 d1 _ ph2 d2 pose2 ph3 d3 pose3 =>
            if b.st.phase = some ph1 then
              if t ≥ d1 then
                { s with pose := pose2, behaviors := (s.behaviors.set i
                    { b with st := { b.st with phase := some ph2, phase_timer := 0 } }) }
              else
                { s with behaviors := (s.behaviors.set i
                    { b with st := { b.st with phase_timer := t } }) }
            else if b.st.phase = some ph2 then
              let prog := min 1 (t / d2)
              if t ≥ d2 then
                { s with pose := pose3, behaviors := (s.behaviors.set i
                    { b with st := { b.st with
                        phase := some ph3, phase_timer := 0, progress := prog } }) }
              else
                { s with behaviors := (s.behaviors.set i
                    { b with st := { b.st with phase_timer := t, progress := prog } }) }
            else if b.st.phase = some ph3 then
              if t ≥ d3 then
                Sys.stopB
                  { s with behaviors := (s.behaviors.set i
                      { b with st := { b.st with phase_timer := t } }) } i true
              else
                { s with behaviors := (s.behaviors.set i
                    { b with st := { b.st with phase_timer := t } }) }
            else
              { s with behaviors := (s.behaviors.set i
                  { b with st := { b.st with phase_timer := t } }) }

/-- The first index at or after `k` of an active behavior other than idle,
mirroring the first pass of `BehaviorManager.active_behavior` over the
registration-ordered behaviors. -/
def findActiveNonIdle (bs : List Behavior) (idle : Nat) (k : Nat) : Option Nat :=
  match bs with
  | [] => none
  | b :: rest =>
      if b.st.active && decide (k ≠ idle) then some k
      else findActiveNonIdle rest idle (k + 1)

/-- From the `active_behavior` property: the first active non-idle
behavior in registration order; otherwise idle when idle is active;
otherwise none.  The result is the behavior's registration index. -/
def Sys.activeIdx (s : Sys) : Option Nat :=
  match findActiveNonIdle s.behaviors s.idleIdx 0 with
  | some i => some i
  | none =>
      match s.behaviors[s.idleIdx]? with
      | some b => if b.st.active then some s.idleIdx else none
      | none => none

/-- The `mark_triggered(current_time)` call on behavior `i`. -/
def Sys.markTriggered (s : Sys) (i : Nat) : Sys :=
  match s.behaviors[i]? with
  | none => s
  | some b =>
      { s with behaviors := (s.behaviors.set i
          { b with st := { b.st with last_trigger_time := s.current_time } }) }

/-- From `BehaviorManager.trigger`: stop whatever `active_behavior`
returns with `completed=False`, then look the name up; on a hit mark it
triggered and start it with the given callback argument, returning true;
on a miss return false. -/
def Sys.trigger (s : Sys) (name : String) (cb : Option CbTag) : Sys × Bool :=
  let s1 := match s.activeIdx with
    | some i => s.stopB i false
    | none => s
  match s1.behaviors.findIdx? (fun b => decide (b.spec.name = name)) with
  | some j => ((s1.markTriggered j).startB j cb, true)
  | none => (s1, false)

/-- The indices of the behaviors eligible for automatic selection: every
registered behavior except idle whose `can_trigger` holds. -/
def Sys.eligibleIdxs (s : Sys) : List Nat :=
  (List.range s.behaviors.length).filter (fun i =>
    decide (i ≠ s.idleIdx) &&
      match s.behaviors[i]? with
      | some b => canTrigger b s.ctx s.current_time
      | none => false)

/-- Priority of the behavior at index `i` (used as the sort key). -/
def Sys.prioAt (s : Sys) (i : Nat) : Int :=
  match s.behaviors[i]? with
  | some b => b.spec.priority
  | none => 0

/-- Stable insertion used to model Python's stable `list.sort(key=priority)`:
the new index goes after every already-placed index of smaller-or-equal
priority. -/
def insertByPrio (s : Sys) (i : Nat) : List Nat → List Nat
  | [] => [i]
  | j :: rest =>
      if s.prioAt j ≤ s.prioAt i then j :: insertByPrio s i rest
      else i :: j :: rest

/-- Stable sort of candidate indices by ascending priority, processing the
candidates in order so that ties keep registration order. -/
def sortByPrio (s : Sys) (l : List Nat) : List Nat :=
  l.foldl (fun acc i => insertByPrio s i acc) []

/-- The index automatic selection would pick: the head of the
priority-sorted eligible list. -/
def Sys.selectIdx (s : Sys) : Option Nat :=
  (sortByPrio s s.eligibleIdxs).head?

/-- From `BehaviorManager._try_automatic_trigger`: collect the eligible
non-idle behaviors, and when any exist pick the stable-sort-by-priority
first, stop idle (interrupted) when it is running, mark the pick triggered
and start it with the manager's completion handler as callback. -/
def Sys.tryAutomaticTrigger (s : Sys) : Sys × Bool :=
  match s.selectIdx with
  | none => (s, false)
  | some best =>
      let s1 := match s.behaviors[s.idleIdx]? with
        | some ib => if ib.st.active then s.stopB s.idleIdx false else s
        | none => s
      ((s1.markTriggered best).startB best (some .mgr), true)

/-- The periodic-check and idle-fallback part of `BehaviorManager.update`:
accumulate the periodic counter, attempt automatic selection once the
15 s interval has elapsed, and finally start idle when nothing is
running. -/
def Sys.updateTail2 (s4 : Sys) (dt : Q) : Sys :=
  let s5 := { s4 with time_since_check := s4.time_since_check + dt }
  let afterAuto : Sys × Bool :=
    if s5.time_since_check ≥ s5.check_interval then
      Sys.tryAutomaticTrigger { s5 with time_since_check := 0 }
    else (s5, false)
  if afterAuto.2 then afterAuto.1
  else
    let s6 := afterAuto.1
    match s6.behaviors[s6.idleIdx]? with
    | some ib => if ib.st.active then s6 else s6.startB s6.idleIdx none
    | none => s6

/-- The part of `BehaviorManager.update` past its early return: consume
the one-shot `override_next_behavior` slot (triggering it with no
callback), then run the periodic check and idle fallback. -/
def Sys.updateTail (s : Sys) (dt : Q) : Sys :=
  let afterOverride : Sys × Bool :=
    match s.ctx.override_next_behavior with
    | some ov =>
        if ov = "" then (s, false)
        else
          let s' := { s with ctx := { s.ctx with override_next_behavior := none } }
          s'.trigger ov none
    | none => (s, false)
  if afterOverride.2 then afterOverride.1
  else Sys.updateTail2 afterOverride.1 dt

/-- The conflict check of `BehaviorManager.update`: when the active
behavior is not idle but idle is simultaneously flagged active, idle is
forcibly stopped as interrupted. -/
def Sys.updateIdleStop (s1 : Sys) (i : Nat) : Sys :=
  if i ≠ s1.idleIdx then
    match s1.behaviors[s1.idleIdx]? with
    | some ib => if ib.st.active then s1.stopB s1.idleIdx false else s1
    | none => s1
  else s1

/-- The active-behavior step of `BehaviorManager.update`: advance the
behavior, then apply its continuous stat effects for the same `dt`. -/
def Sys.updateActive (s2 : Sys) (i : Nat) (dt : Q) : Sys :=
  match (s2.updateB i dt).behaviors[i]? with
  | some b => { s2.updateB i dt with ctx := { (s2.updateB i dt).ctx with
      stats := applyStatEffects b.spec (s2.updateB i dt).ctx.stats dt } }
  | none => s2.updateB i dt

/-- From `BehaviorManager.update(dt)`: advance the clock; stop idle when a
non-idle behavior is simultaneously active; advance and apply the stat
effects of the active behavior, returning early unless it is idle; then
run the tail (override check, periodic automatic selection, idle
fallback). -/
def Sys.update (s : Sys) (dt : Q) : Sys :=
  let s1 := { s with current_time := s.current_time + dt }
  let act := s1.activeIdx
  let s2 := match act with
    | some i => s1.updateIdleStop i
    | none => s1
  let s3 := match act with
    | some i => s2.updateActive i dt
    | none => s2
  match act with
  | some i =>
      if i ≠ s3.idleIdx then s3
      else s3.updateTail dt
  | none => s3.updateTail dt

/-- Fresh mutable state of a behavior instance as built by
`BaseBehavior.__init__`: inactive, no phase, timers zero, and
`_last_trigger_time = -COOLDOWN` so the first trigger is allowed at once. -/
def initBState (cooldown : Q) : BState :=
  { active := false, phase := none, phase_timer := 0, pose_before := none,
    on_complete := none, progress := 0, last_trigger_time := -cooldown }

/-- Builds a fresh behavior instance from its descriptor. -/
def mkBehavior (spec : BSpec) : Behavior :=
  { spec := spec, st := initBState spec.cooldown }

/-- Descriptor of `PlayingBehavior` (`playing.py`): trigger when
playfulness is above 70, priority 30, cooldown 60 s; phases excited
(1 s) → playing (5 s, main) → tired (1 s); continuous effects
playfulness −2/s, energy −0.5/s, stimulation +1/s; completion bonus
playfulness −25, fulfillment +10. -/
def playingSpec : BSpec :=
  { name := "playing", trigger_stat := some "playfulness",
    trigger_threshold := 70, trigger_below := false,
    priority := 30, cooldown := 60,
    stat_effects := [("playfulness", -2), ("energy", -0.5), ("stimulation", 1)],
    completion_bonus := [("playfulness", -25), ("fulfillment", 10)],
    machine := .threePhase "excited" 1 "sitting.side.happy"
      "playing" 5 "sitting_silly.side.happy"
      "tired" 1 "sitting.side.neutral" }

/-- Descriptor of `StretchingBehavior` (`stretching.py`): trigger when
comfort is below 40, priority 50, cooldown 45 s; phases preparing
(0.5 s) → stretching (3 s, main) → relaxing (1 s); continuous effects
comfort +1.5/s, vigor +0.5/s; completion bonus comfort +15, vigor +5. -/
def stretchingSpec : BSpec :=
  { name := "stretching", trigger_stat := some "comfort",
    trigger_threshold := 40, trigger_below := true,
    priority := 50, cooldown := 45,
    stat_effects := [("comfort", 1.5), ("vigor", 0.5)],
    completion_bonus := [("comfort", 15), ("vigor", 5)],
    machine := .threePhase "preparing" 0.5 "standing.side.neutral"
      "stretching" 3 "leaning_forward.side.stretch"
      "relaxing" 1 "standing.side.neutral" }

/-- Modelled from the spec: the seven behavior modules imported by
`manager.py` but absent from the sources (eating, idle, sleeping,
investigating, affection, attention, snacking) are "data only" behaviors
following the identical `BaseBehavior` contract; idle in particular is a
plain low-priority filler with no special state-machine behavior.
They are modelled with the `BaseBehavior` class defaults (priority 50,
cooldown 60 s, no trigger stat hence manual-only, empty stat-effect and
completion-bonus maps) and the base phase machine. -/
def specOnlySpec (name : String) : BSpec :=
  { name := name, trigger_stat := none, trigger_threshold := 50,
    trigger_below := true, priority := 50, cooldown := 60,
    stat_effects := [], completion_bonus := [], machine := .base }

/-- The nine behaviors in the registration order of
`BehaviorManager._create_behaviors`: eating, idle, sleeping,
investigating, playing, stretching, affection, attention, snacking.  Idle
is the second registration, index 1. -/
def initBehaviors : List Behavior :=
  [mkBehavior (specOnlySpec "eating"),
   mkBehavior (specOnlySpec "idle"),
   mkBehavior (specOnlySpec "sleeping"),
   mkBehavior (specOnlySpec "investigating"),
   mkBehavior playingSpec,
   mkBehavior stretchingSpec,
   mkBehavior (specOnlySpec "affection"),
   mkBehavior (specOnlySpec "attention"),
   mkBehavior (specOnlySpec "snacking")]

/-- The system as built by `BehaviorManager.__init__` for a character with
the given initial pose and a context with the given stats and override
slot: all behaviors fresh, clock at 0, check interval 15 s. -/
def Sys.init (pose0 : String) (stats0 : Stats) (ovr : Option String) : Sys :=
  { pose := pose0,
    ctx := { stats := stats0, override_next_behavior := ovr },
    behaviors := initBehaviors, idleIdx := 1,
    current_time := 0, check_interval := 15, time_since_check := 0 }

/-- A manager system over the nine concrete behavior descriptors in
registration order, with every mutable part (pose, context, clocks and
each instance's state) arbitrary.  `Sys.init` is the special case where
every instance state is fresh. -/
def mgrSys (pose : String) (c : Ctx) (now ci tsc : Q)
    (o0 o1 o2 o3 o4 o5 o6 o7 o8 : BState) : Sys :=
  { pose := pose, ctx := c,
    behaviors :=
      [{ spec := specOnlySpec "eating", st := o0 },
       { spec := specOnlySpec "idle", st := o1 },
       { spec := specOnlySpec "sleeping", st := o2 },
       { spec := specOnlySpec "investigating", st := o3 },
       { spec := playingSpec, st := o4 },
       { spec := stretchingSpec, st := o5 },
       { spec := specOnlySpec "affection", st := o6 },
       { spec := specOnlySpec "attention", st := o7 },
       { spec := specOnlySpec "snacking", st := o8 }],
    idleIdx := 1, current_time := now, check_interval := ci,
    time_since_check := tsc }

/-!  The action / reaction overlay module (`src/actions.py`). -/

/-- A reaction descriptor of an action entry: pose, bubble id, duration. -/
structure RC where
  pose : String
  bubble : String
  duration : Q
deriving DecidableEq, Repr

/-- One entry of the `ACTIONS` table: immediate stat deltas plus an
optional reaction descriptor. -/
structure ActionDef where
  stats : List (String × Q)
  reaction : Option RC
deriving DecidableEq, Repr

/-- Builds one `ACTIONS` entry: stat deltas plus a reaction descriptor. -/
def mkAction (deltas : List (String × Q)) (pose bubble : String) (dur : Q) : ActionDef :=
  { stats := deltas,
    reaction := some { pose := pose, bubble := bubble, duration := dur } }

/-- The `ACTIONS` table of `actions.py`, in literal order. -/
def ACTIONS : List (String × ActionDef) :=
  [("kiss", mkAction [("affection", 10)] "sitting.forward.happy" "heart" 2.5),
   ("pets", mkAction [("affection", 5)] "sitting.forward.content" "note" 2),
   ("psst", mkAction [("curiosity", 3)] "sitting.forward.aloof" "question" 1.5),
   ("snack", mkAction [("fullness", 10)] "sitting.forward.happy" "heart" 2),
   ("toy", mkAction [("playfulness", 15), ("stimulation", 10)] "sitting.forward.happy" "exclaim" 2),
   ("point_bird", mkAction [("curiosity", 10), ("stimulation", 5)] "sitting.side.aloof" "exclaim" 2),
   ("throw_stick", mkAction [("playfulness", 15), ("energy", -10)] "sitting.side.happy" "star" 2.5),
   ("treat", mkAction [("fullness", 5), ("affection", 3)] "sitting.side.happy" "heart" 2)]

/-- Mutable state of the `ReactionManager`: countdown timer, configured
duration, and the current bubble id (`none` when inactive). -/
structure RMState where
  timer : Q
  duration : Q
  bubble : Option String
deriving DecidableEq, Repr

/-- The world the action path mutates: the context's stat attributes, the
character's pose, and the reaction manager state. -/
structure AWorld where
  stats : Stats
  pose : String
  rm : RMState
deriving DecidableEq, Repr

/-- From `ReactionManager.trigger_from_config`: force the reaction's pose
on the character and arm bubble, duration and timer from the config. -/
def triggerFromConfig (rc : RC) (w : AWorld) : AWorld :=
  { stats := w.stats, pose := rc.pose,
    rm := { timer := rc.duration, duration := rc.duration, bubble := some rc.bubble } }

/-- From `apply_action(action_key, context, character, reaction_manager)`:
look the key up in `ACTIONS` (returning false on a miss), apply every stat
delta immediately with clamping, then trigger the reaction. -/
def applyAction (key : String) (w : AWorld) : AWorld × Bool :=
  match ACTIONS.find? (fun p => decide (p.1 = key)) with
  | none => (w, false)
  | some a =>
      let stats' := a.2.stats.foldl
        (fun s p => setStat s p.1 (clamp01 (getStat s p.1 0 + p.2))) w.stats
      let w1 := { w with stats := stats' }
      match a.2.reaction with
      | some rc => (triggerFromConfig rc w1, true)
      | none => (w1, true)

/-- From `ReactionManager.update(dt, character, default_pose)`: while the
timer is positive, decrement it by `dt`; upon crossing zero revert the
character's pose to the supplied default and clear the bubble. -/
def rmUpdate (w : AWorld) (dt : Q) (default_pose : String) : AWorld :=
  if w.rm.timer > 0 then
    let t := w.rm.timer - dt
    if t ≤ 0 then
      { stats := w.stats, pose := default_pose,
        rm := { timer := t, duration := w.rm.duration, bubble := none } }
    else { w with rm := { w.rm with timer := t } }
  else w

/-- The number of behavior instances whose active flag is set. -/
def countActive : List Behavior → Nat
  | [] => 0
  | b :: bs => (if b.st.active then 1 else 0) + countActive bs

/-- Every behavior instance of the list is inactive. -/
def AllInactive (bs : List Behavior) : Prop := ∀ b ∈ bs, b.st.active = false

/-- No behavior instance other than idle is active. -/
def NonIdleInactive (s : Sys) : Prop :=
  ∀ j b, s.behaviors[j]? = some b → j ≠ s.idleIdx → b.st.active = false

/-- The states reachable from a freshly constructed manager through its
public operations `trigger` and `update`. -/
inductive Reachable : Sys → Prop where
  | init (pose0 : String) (stats0 : Stats) (ovr : Option String) :
      Reachable (Sys.init pose0 stats0 ovr)
  | trigger (s : Sys) (name : String) (cb : Option CbTag) :
      Reachable s → Reachable (s.trigger name cb).1
  | update (s : Sys) (dt : Q) : Reachable s → Reachable (s.update dt)

/-- A list of `dt` steps that are each positive and keep a phase timer
started at `t` strictly below the phase duration `d`: the in-phase part
of a boundary-aligned step sequence. -/
def stepsOk (t d : Q) : List Q → Prop
  | [] => True
  | x :: xs => 0 < x ∧ t + x < d ∧ stepsOk (t + x) d xs

/-- The playing behavior's continuous stat effects iterated over a list
of `dt` steps. -/
def iterEffects (st : Stats) (L : List Q) : Stats :=
  L.foldl (fun c dt => applyStatEffects playingSpec c dt) st

/-- The stat store seen `T` seconds into a playing run that began at
playfulness `p0`, energy `e0`, stimulation `q0`, fulfillment `f0` (with
no clamp saturating): playfulness drains 2/s, energy 0.5/s, stimulation
gains 1/s, fulfillment is untouched. -/
def PlayStats (p0 e0 q0 f0 T : Q) (cur : Stats) : Prop :=
  (∀ d, getStat cur "playfulness" d = p0 - 2 * T) ∧
    (∀ d, getStat cur "energy" d = e0 - T / 2) ∧
    (∀ d, getStat cur "stimulation" d = q0 + T) ∧
    (∀ d, getStat cur "fulfillment" d = f0)

/-- A system in the middle of a playing run started by automatic
selection: playing is active in phase `ph` with timer `tm`, progress
`prog`, the pre-run pose `pose0` snapshotted and the manager's completion
callback stored; every other instance is fresh. -/
def playRunSys (pose pose0 ph : String) (tm prog ltt : Q) (cur : Stats)
    (now tsc : Q) : Sys :=
  mgrSys pose { stats := cur, override_next_behavior := none } now 15 tsc
    (initBState 60) (initBState 60) (initBState 60) (initBState 60)
    { active := true, phase := some ph, phase_timer := tm,
      pose_before := some pose0, on_complete := some CbTag.mgr,
      progress := prog, last_trigger_time := ltt }
    (initBState 45) (initBState 60) (initBState 60) (initBState 60)

/-! Basic lemmas about the stat store and the clamp. -/

theorem getStat_setStat (st : Stats) (k k' : String) (v d : Q) :
    getStat (setStat st k v) k' d = if k' = k then v else getStat st k' d := by
  induction st with
  | nil =>
      by_cases h : k' = k
      · simp [setStat, getStat, h]
      · simp [setStat, getStat, h, show ¬(k = k') from fun e => h e.symm]
  | cons p rest ih =>
      by_cases hp : p.1 = k
      · by_cases h : k' = k
        · simp [setStat, getStat, hp, h]
        · simp [setStat, getStat, hp, h,
            show ¬(k = k') from fun e => h e.symm,
            show ¬(p.1 = k') from fun e => h (hp.symm.trans e).symm]
      · by_cases hh : p.1 = k'
        · simp [setStat, getStat, hp, hh,
            show ¬(k' = k) from fun e => hp (hh.trans e)]
        · simp [setStat, getStat, hp, hh, ih]

theorem clamp01_nonneg (x : Q) : 0 ≤ clamp01 x := le_max_left 0 _

theorem clamp01_le_100 (x : Q) : clamp01 x ≤ 100 :=
  max_le (by norm_num) (min_le_left 100 x)

theorem clamp01_eq_self (x : Q) (h0 : 0 ≤ x) (h1 : x ≤ 100) : clamp01 x = x := by
  unfold clamp01
  rw [min_eq_right h1, max_eq_right h0]

/-- Every key of the result of a clamped fold-write either kept its old
value or holds a value in `[0, 100]`. -/
theorem getStat_clampFold (f : Stats → String × Q → Q) (l : List (String × Q))
    (st : Stats) (k : String) (d : Q) :
    getStat (l.foldl (fun s p => setStat s p.1 (clamp01 (f s p))) st) k d = getStat st k d ∨
      (0 ≤ getStat (l.foldl (fun s p => setStat s p.1 (clamp01 (f s p))) st) k d ∧
        getStat (l.foldl (fun s p => setStat s p.1 (clamp01 (f s p))) st) k d ≤ 100) := by
  induction l generalizing st with
  | nil => left; rfl
  | cons p rest ih =>
      rw [List.foldl_cons]
      rcases ih (setStat st p.1 (clamp01 (f st p))) with h | h
      · rw [h, getStat_setStat]
        by_cases hk : k = p.1
        · right; rw [if_pos hk]; exact ⟨clamp01_nonneg _, clamp01_le_100 _⟩
        · left; rw [if_neg hk]
      · right; exact h

/-- The stats produced by `apply_action` are the clamped fold of the
looked-up action's deltas (the reaction does not touch stats). -/
theorem applyAction_stats (key : String) (w : AWorld) :
    (applyAction key w).1.stats =
      match ACTIONS.find? (fun p => decide (p.1 = key)) with
      | none => w.stats
      | some a => a.2.stats.foldl
          (fun s p => setStat s p.1 (clamp01 (getStat s p.1 0 + p.2))) w.stats := by
  unfold applyAction
  cases hfind : ACTIONS.find? (fun p => decide (p.1 = key)) with
  | none => simp
  | some a => cases hr : a.2.reaction <;> simp [hr, triggerFromConfig]

/-- C4: every stat write performed by the subsystem — continuous effects
via `apply_stat_effects`, completion bonuses via `apply_completion_bonus`,
and immediate deltas via `apply_action` — leaves each stat either
untouched or holding a value in `[0, 100]`, for every current stat value
and every magnitude and sign of rate, `dt`, bonus, progress or delta. -/
theorem stat_writes_clamped (b : BSpec) (st : Stats) (dt progress : Q)
    (key : String) (w : AWorld) (k : String) (d : Q) :
    (getStat (applyStatEffects b st dt) k d = getStat st k d ∨
      (0 ≤ getStat (applyStatEffects b st dt) k d ∧
        getStat (applyStatEffects b st dt) k d ≤ 100)) ∧
    (getStat (applyCompletionBonus b st progress) k d = getStat st k d ∨
      (0 ≤ getStat (applyCompletionBonus b st progress) k d ∧
        getStat (applyCompletionBonus b st progress) k d ≤ 100)) ∧
    (getStat (applyAction key w).1.stats k d = getStat w.stats k d ∨
      (0 ≤ getStat (applyAction key w).1.stats k d ∧
        getStat (applyAction key w).1.stats k d ≤ 100)) := by
  refine ⟨getStat_clampFold (fun s p => getStat s p.1 0 + p.2 * dt) _ st k d,
    getStat_clampFold (fun s p => getStat s p.1 0 + p.2 * progress) _ st k d, ?_⟩
  rw [applyAction_stats]
  cases hfind : ACTIONS.find? (fun p => decide (p.1 = key)) with
  | none => left; rfl
  | some a =>
      exact getStat_clampFold (fun s p => getStat s p.1 0 + p.2) a.2.stats w.stats k d

/-! Lemmas about `stop` and the completion handler. -/

/-- The completion handler mutates only the context, never the behavior
list (it re-reads, but does not write, behavior state). -/
theorem onBehaviorComplete_behaviors (s : Sys) (c : Bool) (p : Q) :
    (s.onBehaviorComplete c p).behaviors = s.behaviors := by
  cases c with
  | false => rfl
  | true =>
      unfold Sys.onBehaviorComplete
      cases findBonusTarget s.behaviors <;> simp

/-- The completion handler touches neither pose nor clocks. -/
theorem onBehaviorComplete_parts (s : Sys) (c : Bool) (p : Q) :
    (s.onBehaviorComplete c p).pose = s.pose ∧
      (s.onBehaviorComplete c p).idleIdx = s.idleIdx ∧
      (s.onBehaviorComplete c p).current_time = s.current_time ∧
      (s.onBehaviorComplete c p).check_interval = s.check_interval ∧
      (s.onBehaviorComplete c p).time_since_check = s.time_since_check := by
  cases c with
  | false => exact ⟨rfl, rfl, rfl, rfl, rfl⟩
  | true =>
      unfold Sys.onBehaviorComplete
      cases findBonusTarget s.behaviors <;> simp

/-- `stop` on an inactive behavior instance is the identity. -/
theorem stopB_inactive (s : Sys) (i : Nat) (c : Bool) (b : Behavior)
    (hb : s.behaviors[i]? = some b) (hact : b.st.active = false) :
    s.stopB i c = s := by
  unfold Sys.stopB
  rw [hb]
  simp [hact]

/-- After `stop`, the behavior instance at the stopped index is inactive
(whether the stop acted or was a no-op). -/
theorem stopB_inactive_after (s : Sys) (i : Nat) (c : Bool) (b : Behavior)
    (hb : s.behaviors[i]? = some b) :
    ∃ b', (s.stopB i c).behaviors[i]? = some b' ∧ b'.st.active = false := by
  have hlen : i < s.behaviors.length := by
    by_contra hge
    rw [List.getElem?_eq_none (Nat.le_of_not_lt hge)] at hb
    exact Option.noConfusion hb
  cases hact : b.st.active with
  | false =>
      refine ⟨b, ?_, hact⟩
      rw [stopB_inactive s i c b hb hact]
      exact hb
  | true =>
      unfold Sys.stopB
      rw [hb]
      refine ⟨{ b with st := { b.st with
        active := false, pose_before := none, on_complete := none } }, ?_, rfl⟩
      cases hcb : b.st.on_complete with
      | none => simp [hact, hcb, List.getElem?_set_eq_of_lt _ hlen]
      | some tag =>
          cases tag
          simp [hact, hcb, onBehaviorComplete_behaviors,
            List.getElem?_set_eq_of_lt _ hlen]

/-- C9: for every inactive behavior instance, `stop()` (with any
`completed` argument) is a no-op — state, pose and context are unchanged
and no callback runs — and consequently a second `stop()` after a first
one never acts (so the completion callback is never invoked twice). -/
theorem stop_noop_and_idempotent (s : Sys) (i : Nat) (c c' : Bool) :
    (∀ b, s.behaviors[i]? = some b → b.st.active = false → s.stopB i c = s) ∧
      (s.stopB i c).stopB i c' = s.stopB i c := by
  constructor
  · intro b hb hact
    exact stopB_inactive s i c b hb hact
  · cases hb : s.behaviors[i]? with
    | none =>
        have hnone : s.stopB i c = s := by
          unfold Sys.stopB; rw [hb]
        rw [hnone]
        unfold Sys.stopB; rw [hb]
    | some b =>
        obtain ⟨b', hb', hact'⟩ := stopB_inactive_after s i c b hb
        exact stopB_inactive _ i c' b' hb' hact'

/-- Witness for C9 at a concrete input: stopping the (inactive) eating
behavior of a fresh system does nothing. -/
theorem stop_noop_and_idempotent_witness :
    Sys.stopB (Sys.init "sitting.side.neutral" [] none) 0 true
        = Sys.init "sitting.side.neutral" [] none ∧
      (Sys.stopB (Sys.init "sitting.side.neutral" [] none) 0 true).stopB 0 false
        = Sys.stopB (Sys.init "sitting.side.neutral" [] none) 0 true := by
  have h := stop_noop_and_idempotent (Sys.init "sitting.side.neutral" [] none) 0 true false
  exact ⟨h.1 (mkBehavior (specOnlySpec "eating")) rfl rfl, h.2⟩

/-! Counting active behavior instances: infrastructure for the
mutual-exclusion invariant and the callback bookkeeping. -/

theorem countActive_eq_zero_iff (bs : List Behavior) :
    countActive bs = 0 ↔ AllInactive bs := by
  induction bs with
  | nil => simp [countActive, AllInactive]
  | cons b rest ih =>
      simp only [AllInactive, List.mem_cons] at ih ⊢
      cases hb : b.st.active <;> simp [countActive, hb, ih] <;>
        intro x hx <;> simp [hx]

theorem allInactive_getElem? {bs : List Behavior} (h : AllInactive bs)
    (i : Nat) (b : Behavior) (hb : bs[i]? = some b) : b.st.active = false :=
  h b (List.mem_iff_getElem?.mpr ⟨i, hb⟩)

theorem allInactive_set {bs : List Behavior} (h : AllInactive bs) (i : Nat)
    {b' : Behavior} (hb' : b'.st.active = false) : AllInactive (bs.set i b') := by
  intro x hx
  rcases List.mem_or_eq_of_mem_set hx with hx | rfl
  · exact h x hx
  · exact hb'

theorem countActive_set_le {bs : List Behavior} {b' : Behavior}
    (hb' : b'.st.active = false) : ∀ i, countActive (bs.set i b') ≤ countActive bs := by
  induction bs with
  | nil => intro i; simp [countActive]
  | cons x rest ih =>
      intro i
      cases i with
      | zero =>
          simp only [List.set_cons_zero, countActive, hb']
          cases hx : x.st.active <;> simp <;> omega
      | succ i' =>
          simp only [List.set_cons_succ, countActive]
          have := ih i'
          omega

theorem countActive_set_le_succ (bs : List Behavior) (b' : Behavior) :
    ∀ i, countActive (bs.set i b') ≤ countActive bs + 1 := by
  induction bs with
  | nil => intro i; simp [countActive]
  | cons x rest ih =>
      intro i
      cases i with
      | zero =>
          simp only [List.set_cons_zero, countActive]
          cases hx : x.st.active <;> cases hb' : b'.st.active <;> simp <;> omega
      | succ i' =>
          simp only [List.set_cons_succ, countActive]
          have := ih i'
          omega

theorem countActive_of_allInactive {bs : List Behavior} (h : AllInactive bs) :
    countActive bs = 0 := (countActive_eq_zero_iff bs).mpr h

theorem countActive_pos_of_active {bs : List Behavior} :
    ∀ {i : Nat} {b : Behavior}, bs[i]? = some b → b.st.active = true →
      1 ≤ countActive bs := by
  induction bs with
  | nil => intro i b hb; simp at hb
  | cons x rest ih =>
      intro i b hb hact
      cases i with
      | zero =>
          rw [List.getElem?_cons_zero] at hb
          injection hb with hb; subst hb
          simp [countActive, hact]
      | succ i' =>
          rw [List.getElem?_cons_succ] at hb
          have := ih hb hact
          cases hx : x.st.active <;> simp [countActive, hx] <;> omega

/-- Under the mutual-exclusion bound, an active instance is the only
active instance. -/
theorem unique_active_of_count_le_one {bs : List Behavior} :
    ∀ {i : Nat} {b : Behavior}, countActive bs ≤ 1 → bs[i]? = some b →
      b.st.active = true →
      ∀ j b', bs[j]? = some b' → j ≠ i → b'.st.active = false := by
  induction bs with
  | nil => intro i b _ hb; simp at hb
  | cons x rest ih =>
      intro i b hc hb hact j b' hb' hne
      cases i with
      | zero =>
          rw [List.getElem?_cons_zero] at hb
          injection hb with hb; subst hb
          have h0 : countActive rest = 0 := by
            simp [countActive, hact] at hc
            omega
          cases j with
          | zero => exact absurd rfl hne
          | succ j' =>
              rw [List.getElem?_cons_succ] at hb'
              exact allInactive_getElem? ((countActive_eq_zero_iff rest).mp h0) j' b' hb'
      | succ i' =>
          rw [List.getElem?_cons_succ] at hb
          have hc' : countActive rest ≤ 1 := by
            unfold countActive at hc
            omega
          cases j with
          | zero =>
              rw [List.getElem?_cons_zero] at hb'
              injection hb' with hb'; subst hb'
              cases hx : x.st.active
              · rfl
              · exfalso
                have h1 := countActive_pos_of_active hb hact
                simp [countActive, hx] at hc
                omega
          | succ j' =>
              rw [List.getElem?_cons_succ] at hb'
              exact ih hc' hb hact j' b' hb' (fun e => hne (by rw [e]))

/-- Deactivating the unique active instance leaves every instance
inactive. -/
theorem allInactive_deactivate {bs : List Behavior} {i : Nat} {b : Behavior}
    (hc : countActive bs ≤ 1) (hb : bs[i]? = some b) (hact : b.st.active = true)
    {b' : Behavior} (hb' : b'.st.active = false) : AllInactive (bs.set i b') := by
  intro x hx
  obtain ⟨j, hj⟩ := List.mem_iff_getElem?.mp hx
  by_cases hji : i = j
  · subst hji
    have hlen : i < bs.length := (List.getElem?_eq_some.mp hb).1
    rw [List.getElem?_set_eq_of_lt _ hlen] at hj
    injection hj with hj; subst hj
    exact hb'
  · rw [List.getElem?_set_ne hji] at hj
    exact unique_active_of_count_le_one hc hb hact j x hj (fun e => hji e.symm)

/-! Lemmas about `active_behavior` (the `activeIdx` scan). -/

theorem findActiveNonIdle_none {bs : List Behavior} {idle : Nat} :
    ∀ {k : Nat}, findActiveNonIdle bs idle k = none →
      ∀ j b, bs[j]? = some b → k + j ≠ idle → b.st.active = false := by
  induction bs with
  | nil => intro k _ j b hb; simp at hb
  | cons x rest ih =>
      intro k h j b hb hne
      unfold findActiveNonIdle at h
      by_cases hcond : (x.st.active && decide (k ≠ idle)) = true
      · rw [if_pos hcond] at h; exact Option.noConfusion h
      · rw [if_neg hcond] at h
        cases j with
        | zero =>
            rw [List.getElem?_cons_zero] at hb
            injection hb with hb; subst hb
            have hk : k ≠ idle := by simpa using hne
            cases hx : x.st.active
            · rfl
            · exact absurd (by simp [hx, hk]) hcond
        | succ j' =>
            rw [List.getElem?_cons_succ] at hb
            exact ih h j' b hb (by omega)

theorem findActiveNonIdle_some {bs : List Behavior} {idle : Nat} :
    ∀ {k j : Nat}, findActiveNonIdle bs idle k = some j →
      j ≠ idle ∧ k ≤ j ∧ ∃ b, bs[j - k]? = some b ∧ b.st.active = true := by
  induction bs with
  | nil => intro k j h; simp [findActiveNonIdle] at h
  | cons x rest ih =>
      intro k j h
      unfold findActiveNonIdle at h
      by_cases hcond : (x.st.active && decide (k ≠ idle)) = true
      · rw [if_pos hcond] at h
        injection h with h; subst h
        simp only [Bool.and_eq_true, decide_eq_true_eq] at hcond
        exact ⟨hcond.2, Nat.le_refl k, x, by simp [hcond.1], hcond.1⟩
      · rw [if_neg hcond] at h
        obtain ⟨h1, h2, b, hb, hact⟩ := ih h
        refine ⟨h1, by omega, b, ?_, hact⟩
        have hjk : j - k = (j - (k + 1)) + 1 := by omega
        rw [hjk, List.getElem?_cons_succ]
        exact hb

theorem activeIdx_none_allInactive {s : Sys} (h : s.activeIdx = none) :
    AllInactive s.behaviors := by
  unfold Sys.activeIdx at h
  split at h
  · exact absurd h (by simp)
  · next hf =>
      intro b hbmem
      obtain ⟨j, hj⟩ := List.mem_iff_getElem?.mp hbmem
      by_cases hidle : j = s.idleIdx
      · subst hidle
        split at h
        · next b2 hb2 =>
            rw [hj] at hb2
            injection hb2 with hb2
            subst hb2
            split at h
            · exact absurd h (by simp)
            · next hactf => simpa using hactf
        · next hb2 => rw [hj] at hb2; exact Option.noConfusion hb2
      · exact findActiveNonIdle_none hf j b hj (by omega)

theorem activeIdx_some_active {s : Sys} {i : Nat} (h : s.activeIdx = some i) :
    ∃ b, s.behaviors[i]? = some b ∧ b.st.active = true := by
  unfold Sys.activeIdx at h
  split at h
  · next j hf =>
      injection h with h
      subst h
      obtain ⟨_, _, b, hb, hact⟩ := findActiveNonIdle_some hf
      exact ⟨b, by simpa using hb, hact⟩
  · next hf =>
      split at h
      · next b hb =>
          split at h
          · next hact =>
              injection h with h
              subst h
              exact ⟨b, hb, hact⟩
          · exact Option.noConfusion h
      · exact Option.noConfusion h

/-! Structural lemmas about `stop`, `start`, `mark_triggered`. -/

/-- The behavior list produced by an effective `stop`. -/
theorem stopB_behaviors_active (s : Sys) (i : Nat) (c : Bool) (b : Behavior)
    (hb : s.behaviors[i]? = some b) (hact : b.st.active = true) :
    (s.stopB i c).behaviors = s.behaviors.set i
      { b with st := { b.st with
          active := false, pose_before := none, on_complete := none } } := by
  unfold Sys.stopB
  rw [hb]
  cases hcb : b.st.on_complete with
  | none => simp [hact, hcb]
  | some tag => cases tag; simp [hact, hcb, onBehaviorComplete_behaviors]

/-- Stopping the behavior `active_behavior` found leaves every instance
inactive, given the mutual-exclusion bound. -/
theorem stopB_allInactive (s : Sys) (i : Nat) (c : Bool)
    (hc : countActive s.behaviors ≤ 1) (hidx : s.activeIdx = some i) :
    AllInactive (s.stopB i c).behaviors := by
  obtain ⟨b, hb, hact⟩ := activeIdx_some_active hidx
  rw [stopB_behaviors_active s i c b hb hact]
  exact allInactive_deactivate hc hb hact rfl

/-- `stop` never increases the number of active instances. -/
theorem countActive_stopB (s : Sys) (i : Nat) (c : Bool) :
    countActive (s.stopB i c).behaviors ≤ countActive s.behaviors := by
  cases hb : s.behaviors[i]? with
  | none =>
      have : s.stopB i c = s := by unfold Sys.stopB; rw [hb]
      rw [this]
  | some b =>
      cases hact : b.st.active with
      | false => rw [stopB_inactive s i c b hb hact]
      | true =>
          rw [stopB_behaviors_active s i c b hb hact]
          exact countActive_set_le rfl i

/-- `stop` preserves the per-index descriptor of every behavior. -/
theorem stopB_spec_map (s : Sys) (i : Nat) (c : Bool) :
    (s.stopB i c).behaviors.map (fun b => b.spec) =
      s.behaviors.map (fun b => b.spec) := by
  cases hb : s.behaviors[i]? with
  | none =>
      have : s.stopB i c = s := by unfold Sys.stopB; rw [hb]
      rw [this]
  | some b =>
      cases hact : b.st.active with
      | false => rw [stopB_inactive s i c b hb hact]
      | true =>
          rw [stopB_behaviors_active s i c b hb hact, List.map_set]
          apply List.ext_getElem?
          intro j
          by_cases hji : i = j
          · subst hji
            have hlen : i < s.behaviors.length := (List.getElem?_eq_some.mp hb).1
            rw [List.getElem?_set_eq_of_lt _ (by simpa using hlen)]
            simp [List.getElem?_map, hb]
          · rw [List.getElem?_set_ne hji]

/-- A `stop` with `completed=False` (the interruption path) never touches
the context: the completion handler does nothing for interruptions. -/
theorem stopB_false_ctx (s : Sys) (i : Nat) : (s.stopB i false).ctx = s.ctx := by
  unfold Sys.stopB
  cases hb : s.behaviors[i]? with
  | none => rfl
  | some b =>
      cases hact : b.st.active with
      | false => simp [hact]
      | true =>
          cases hcb : b.st.on_complete with
          | none => simp [hact, hcb]
          | some tag => cases tag; simp [hact, hcb, Sys.onBehaviorComplete]

/-- A `stop` of a behavior holding no callback never touches the context:
without a stored callback no completion bonus can be applied. -/
theorem stopB_ctx_of_none_cb (s2 : Sys) (i : Nat) (c : Bool) (b2 : Behavior)
    (hb : s2.behaviors[i]? = some b2) (hcb : b2.st.on_complete = none) :
    (s2.stopB i c).ctx = s2.ctx := by
  unfold Sys.stopB
  rw [hb]
  cases hact : b2.st.active with
  | false => simp [hact]
  | true => simp [hact, hcb]

/-- `mark_triggered` only rewrites the instance's last-trigger time. -/
theorem markTriggered_at (s : Sys) (i : Nat) (b : Behavior)
    (hb : s.behaviors[i]? = some b) :
    (s.markTriggered i).behaviors[i]? =
        some { b with st := { b.st with last_trigger_time := s.current_time } } ∧
      (s.markTriggered i).pose = s.pose ∧ (s.markTriggered i).ctx = s.ctx := by
  have hlen : i < s.behaviors.length := (List.getElem?_eq_some.mp hb).1
  unfold Sys.markTriggered
  rw [hb]
  exact ⟨by simp [List.getElem?_set_eq_of_lt _ hlen], rfl, rfl⟩

/-- `start` never touches the context. -/
theorem startB_ctx (s : Sys) (i : Nat) (cb : Option CbTag) :
    (s.startB i cb).ctx = s.ctx := by
  unfold Sys.startB
  cases hb : s.behaviors[i]? with
  | none => rfl
  | some b =>
      cases hact : b.st.active with
      | true => simp [hact]
      | false => cases hm : b.spec.machine <;> simp [hact, hm]

/-- The instance produced by an effective `start`: active, reset, holding
the given callback and the snapshotted pose. -/
theorem startB_inactive_at (s : Sys) (i : Nat) (cb : Option CbTag) (b : Behavior)
    (hb : s.behaviors[i]? = some b) (hact : b.st.active = false) :
    ∃ b', (s.startB i cb).behaviors[i]? = some b' ∧ b'.st.active = true ∧
      b'.st.on_complete = cb ∧ b'.st.pose_before = some s.pose ∧ b'.spec = b.spec := by
  have hlen : i < s.behaviors.length := (List.getElem?_eq_some.mp hb).1
  unfold Sys.startB
  rw [hb]
  cases hm : b.spec.machine with
  | base =>
      exact ⟨{ b with st := startedSt b.st "start" s.pose cb },
        by simp [hact, hm, List.getElem?_set_eq_of_lt _ hlen], rfl, rfl, rfl, rfl⟩
  | threePhase ph1 d1 sp ph2 d2 p2 ph3 d3 p3 =>
      exact ⟨{ b with st := startedSt b.st ph1 s.pose cb },
        by simp [hact, hm, List.getElem?_set_eq_of_lt _ hlen], rfl, rfl, rfl, rfl⟩

/-- A name lookup over the behavior list depends only on the descriptors. -/
theorem findIdx?_on_spec {l l' : List Behavior} (q : BSpec → Bool)
    (h : l.map (fun b => b.spec) = l'.map (fun b => b.spec)) :
    l.findIdx? (fun b => q b.spec) = l'.findIdx? (fun b => q b.spec) :=
  calc l.findIdx? (fun b => q b.spec)
      = (l.map (fun b => b.spec)).findIdx? q := (List.findIdx?_map _ l).symm
    _ = (l'.map (fun b => b.spec)).findIdx? q := by rw [h]
    _ = l'.findIdx? (fun b => q b.spec) := List.findIdx?_map _ l'

/-- The state `trigger` looks the name up in (after stopping whatever was
active), made explicit. -/
theorem trigger_eq (s : Sys) (name : String) (cb : Option CbTag) :
    s.trigger name cb =
      (match (match s.activeIdx with | some i => s.stopB i false | none => s).behaviors.findIdx?
          (fun b : Behavior => decide (b.spec.name = name)) with
       | some j =>
          (((match s.activeIdx with | some i => s.stopB i false | none => s).markTriggered j).startB j cb, true)
       | none => ((match s.activeIdx with | some i => s.stopB i false | none => s), false)) := rfl

/-- C10: a behavior started through the scheduler's `trigger(name)` with
no extra arguments stores no completion callback (`None`); a `stop` of a
behavior holding no callback leaves the context untouched, so a manually
triggered run can never apply its completion bonus — its only stat
influence is the continuous per-tick effects; moreover `trigger` itself
leaves the context unchanged. -/
theorem manual_trigger_no_completion_bonus (s : Sys) (name : String) (j : Nat)
    (hcount : countActive s.behaviors ≤ 1)
    (hfind : s.behaviors.findIdx? (fun x => decide (x.spec.name = name)) = some j) :
    (s.trigger name none).2 = true ∧
      (∃ b', (s.trigger name none).1.behaviors[j]? = some b' ∧
        b'.st.active = true ∧ b'.st.on_complete = none) ∧
      (s.trigger name none).1.ctx = s.ctx ∧
      (∀ (s2 : Sys) (i : Nat) (c : Bool) (b2 : Behavior),
        s2.behaviors[i]? = some b2 → b2.st.on_complete = none →
        (s2.stopB i c).ctx = s2.ctx) := by
  have hstep : ∀ (s1 : Sys), s1.ctx = s.ctx → AllInactive s1.behaviors →
      s1.behaviors.findIdx? (fun x => decide (x.spec.name = name)) = some j →
      ((s1.markTriggered j).startB j none).ctx = s.ctx ∧
        ∃ b', ((s1.markTriggered j).startB j none).behaviors[j]? = some b' ∧
          b'.st.active = true ∧ b'.st.on_complete = none := by
    intro s1 hctx hinact hfind1
    obtain ⟨hlt, hpred, _⟩ := List.findIdx?_eq_some_iff_getElem.mp hfind1
    have hbj : s1.behaviors[j]? = some s1.behaviors[j] :=
      List.getElem?_eq_some.mpr ⟨hlt, rfl⟩
    have hinj : s1.behaviors[j].st.active = false :=
      allInactive_getElem? hinact j _ hbj
    obtain ⟨hmk, _, hmctx⟩ := markTriggered_at s1 j _ hbj
    obtain ⟨b', hb', hact', hcb', _, _⟩ :=
      startB_inactive_at (s1.markTriggered j) j none _ hmk (by simpa using hinj)
    refine ⟨by rw [startB_ctx, hmctx, hctx], b', hb', hact', hcb'⟩
  have hlast : ∀ (s2 : Sys) (i : Nat) (c : Bool) (b2 : Behavior),
      s2.behaviors[i]? = some b2 → b2.st.on_complete = none →
      (s2.stopB i c).ctx = s2.ctx := fun s2 i c b2 hb hcb =>
    stopB_ctx_of_none_cb s2 i c b2 hb hcb
  rw [trigger_eq]
  cases hai : s.activeIdx with
  | none =>
      simp only [hai]
      rw [hfind]
      obtain ⟨h1, b', hb', hact', hcb'⟩ :=
        hstep s rfl (activeIdx_none_allInactive hai) hfind
      exact ⟨rfl, ⟨b', hb', hact', hcb'⟩, h1, hlast⟩
  | some i =>
      simp only [hai]
      have hinact1 : AllInactive (s.stopB i false).behaviors :=
        stopB_allInactive s i false hcount hai
      have hfind1 : (s.stopB i false).behaviors.findIdx?
          (fun x => decide (x.spec.name = name)) = some j := by
        rw [findIdx?_on_spec (fun sp => decide (sp.name = name)) (stopB_spec_map s i false)]
        exact hfind
      rw [hfind1]
      obtain ⟨h1, b', hb', hact', hcb'⟩ :=
        hstep (s.stopB i false) (stopB_false_ctx s i) hinact1 hfind1
      exact ⟨rfl, ⟨b', hb', hact', hcb'⟩, h1, hlast⟩

/-- Witness for C10: manually triggering "playing" on a fresh system
succeeds, and the started instance stores no completion callback. -/
theorem manual_trigger_no_completion_bonus_witness :
    ((Sys.init "sitting.side.neutral" [] none).trigger "playing" none).2 = true :=
  (manual_trigger_no_completion_bonus (Sys.init "sitting.side.neutral" [] none)
    "playing" 4 (by decide) (by decide)).1

/-- C1 counterexample: with the playing behavior active, calling
`trigger` with an unknown name returns false — but the active behavior
has nonetheless been stopped, so behavior state is not preserved.  The
code stops `active_behavior` before the name lookup. -/
theorem trigger_unknown_counterexample :
    ((((Sys.init "standing.side.neutral" [] none).trigger "playing" none).1.trigger
        "nonexistent" none).2 = false) ∧
      ((((Sys.init "standing.side.neutral" [] none).trigger "playing" none).1.behaviors[4]?).map
        (fun b => b.st.active)) = some true ∧
      (((((Sys.init "standing.side.neutral" [] none).trigger "playing" none).1.trigger
          "nonexistent" none).1.behaviors[4]?).map (fun b => b.st.active)) = some false := by
  exact ⟨rfl, rfl, rfl⟩

/-- C1 amended: `trigger` with an unregistered name returns false and
starts nothing, and when no behavior is active the whole state is
unchanged; but when a behavior is active the call has already stopped it
(interrupted, `completed=False`) before the failing lookup. -/
theorem trigger_unknown_amended (s : Sys) (name : String) (cb : Option CbTag)
    (hname : ∀ b ∈ s.behaviors, b.spec.name ≠ name) :
    (s.trigger name cb).2 = false ∧
      (s.activeIdx = none → (s.trigger name cb).1 = s) ∧
      (∀ i, s.activeIdx = some i → (s.trigger name cb).1 = s.stopB i false) := by
  have hfnone : ∀ (l : List Behavior),
      l.map (fun b => b.spec) = s.behaviors.map (fun b => b.spec) →
      l.findIdx? (fun b : Behavior => decide (b.spec.name = name)) = none := by
    intro l hl
    rw [List.findIdx?_eq_none_iff]
    intro x hx
    have hmem : x.spec ∈ s.behaviors.map (fun b => b.spec) := by
      rw [← hl]
      exact List.mem_map_of_mem _ hx
    obtain ⟨b, hbmem, hbe⟩ := List.mem_map.mp hmem
    rw [decide_eq_false_iff_not, ← hbe]
    exact hname b hbmem
  rw [trigger_eq]
  cases hai : s.activeIdx with
  | none =>
      simp only [hai]
      rw [hfnone s.behaviors rfl]
      exact ⟨rfl, fun _ => rfl, fun i h => absurd h (by simp)⟩
  | some i =>
      simp only [hai]
      rw [hfnone (s.stopB i false).behaviors (stopB_spec_map s i false)]
      refine ⟨rfl, fun h => absurd h (by simp), fun i' h => ?_⟩
      have hii : i = i' := by injection h
      subst hii
      rfl

/-- Witness for the amended C1: an unknown name on a fresh (nothing
active) system leaves the system unchanged. -/
theorem trigger_unknown_amended_witness :
    ((Sys.init "standing.side.neutral" [] none).trigger "nonexistent" none).1 =
      Sys.init "standing.side.neutral" [] none :=
  (trigger_unknown_amended (Sys.init "standing.side.neutral" [] none)
    "nonexistent" none (by decide)).2.1 rfl

set_option maxHeartbeats 1600000 in
/-- First step of the C2 scenario: after 15 s the automatic check starts
stretching (cooldowns allow it, comfort 10 < 40), snapshotting the pose
and storing the manager callback; no stat effects are applied on the
starting tick. -/
theorem c2_step1 :
    (Sys.init "default.pose" [("comfort", 10), ("playfulness", 50)] none).update 15 =
      mgrSys "standing.side.neutral"
        { stats := [("comfort", 10), ("playfulness", 50)],
          override_next_behavior := none }
        15 15 0 (initBState 60) (initBState 60) (initBState 60) (initBState 60)
        (initBState 60)
        { active := true, phase := some "preparing", phase_timer := 0,
          pose_before := some "default.pose", on_complete := some CbTag.mgr,
          progress := 0, last_trigger_time := 15 }
        (initBState 60) (initBState 60) (initBState 60) := by
  norm_num +decide [Sys.init, Sys.update, Sys.updateIdleStop, Sys.updateActive, Sys.updateTail, Sys.updateTail2, Sys.activeIdx, Sys.trigger,
    Sys.tryAutomaticTrigger, Sys.selectIdx, Sys.eligibleIdxs, Sys.stopB, Sys.startB,
    Sys.markTriggered, Sys.updateB, findActiveNonIdle, initBehaviors, mkBehavior,
    initBState, specOnlySpec, playingSpec, stretchingSpec, canTrigger, getStat,
    setStat, sortByPrio, insertByPrio, Sys.prioAt, startedSt, applyStatEffects,
    applyCompletionBonus, clamp01, findBonusTarget, Sys.onBehaviorComplete,
    List.range, List.range.loop, List.filter, List.foldl, List.findIdx?,
    min_def, max_def, mgrSys]

set_option maxHeartbeats 1600000 in
/-- Second step of the C2 scenario: 0.5 s ends the preparing phase. -/
theorem c2_step2 :
    (mgrSys "standing.side.neutral"
        { stats := [("comfort", 10), ("playfulness", 50)],
          override_next_behavior := none }
        15 15 0 (initBState 60) (initBState 60) (initBState 60) (initBState 60)
        (initBState 60)
        { active := true, phase := some "preparing", phase_timer := 0,
          pose_before := some "default.pose", on_complete := some CbTag.mgr,
          progress := 0, last_trigger_time := 15 }
        (initBState 60) (initBState 60) (initBState 60)).update 0.5 =
      mgrSys "leaning_forward.side.stretch"
        { stats := [("comfort", 43/4), ("playfulness", 50), ("vigor", 1/4)],
          override_next_behavior := none }
        (31/2) 15 0 (initBState 60) (initBState 60) (initBState 60) (initBState 60)
        (initBState 60)
        { active := true, phase := some "stretching", phase_timer := 0,
          pose_before := some "default.pose", on_complete := some CbTag.mgr,
          progress := 0, last_trigger_time := 15 }
        (initBState 60) (initBState 60) (initBState 60) := by
  norm_num +decide [Sys.update, Sys.updateIdleStop, Sys.updateActive, Sys.updateTail, Sys.updateTail2, Sys.activeIdx, Sys.trigger,
    Sys.tryAutomaticTrigger, Sys.selectIdx, Sys.eligibleIdxs, Sys.stopB, Sys.startB,
    Sys.markTriggered, Sys.updateB, findActiveNonIdle, initBehaviors, mkBehavior,
    initBState, specOnlySpec, playingSpec, stretchingSpec, canTrigger, getStat,
    setStat, sortByPrio, insertByPrio, Sys.prioAt, startedSt, applyStatEffects,
    applyCompletionBonus, clamp01, findBonusTarget, Sys.onBehaviorComplete,
    List.range, List.range.loop, List.filter, List.foldl, List.findIdx?,
    min_def, max_def, mgrSys]

set_option maxHeartbeats 1600000 in
/-- Third step of the C2 scenario: 3 s ends the main stretching phase
with progress exactly 1. -/
theorem c2_step3 :
    (mgrSys "leaning_forward.side.stretch"
        { stats := [("comfort", 43/4), ("playfulness", 50), ("vigor", 1/4)],
          override_next_behavior := none }
        (31/2) 15 0 (initBState 60) (initBState 60) (initBState 60) (initBState 60)
        (initBState 60)
        { active := true, phase := some "stretching", phase_timer := 0,
          pose_before := some "default.pose", on_complete := some CbTag.mgr,
          progress := 0, last_trigger_time := 15 }
        (initBState 60) (initBState 60) (initBState 60)).update 3 =
      mgrSys "standing.side.neutral"
        { stats := [("comfort", 61/4), ("playfulness", 50), ("vigor", 7/4)],
          override_next_behavior := none }
        (37/2) 15 0 (initBState 60) (initBState 60) (initBState 60) (initBState 60)
        (initBState 60)
        { active := true, phase := some "relaxing", phase_timer := 0,
          pose_before := some "default.pose", on_complete := some CbTag.mgr,
          progress := 1, last_trigger_time := 15 }
        (initBState 60) (initBState 60) (initBState 60) := by
  norm_num +decide [Sys.update, Sys.updateIdleStop, Sys.updateActive, Sys.updateTail, Sys.updateTail2, Sys.activeIdx, Sys.trigger,
    Sys.tryAutomaticTrigger, Sys.selectIdx, Sys.eligibleIdxs, Sys.stopB, Sys.startB,
    Sys.markTriggered, Sys.updateB, findActiveNonIdle, initBehaviors, mkBehavior,
    initBState, specOnlySpec, playingSpec, stretchingSpec, canTrigger, getStat,
    setStat, sortByPrio, insertByPrio, Sys.prioAt, startedSt, applyStatEffects,
    applyCompletionBonus, clamp01, findBonusTarget, Sys.onBehaviorComplete,
    List.range, List.range.loop, List.filter, List.foldl, List.findIdx?,
    min_def, max_def, mgrSys]

set_option maxHeartbeats 1600000 in
/-- Last step of the C2 scenario: 1 s ends the relaxing phase; stretching
stops with `completed=True` and progress 1, the pose is restored, and the
completion handler's scan applies the bonus of the playing behavior —
playfulness 50 − 25 and fulfillment 0 + 10 — while comfort and vigor get
only the continuous effects of the final second. -/
theorem c2_step4 :
    (mgrSys "standing.side.neutral"
        { stats := [("comfort", 61/4), ("playfulness", 50), ("vigor", 7/4)],
          override_next_behavior := none }
        (37/2) 15 0 (initBState 60) (initBState 60) (initBState 60) (initBState 60)
        (initBState 60)
        { active := true, phase := some "relaxing", phase_timer := 0,
          pose_before := some "default.pose", on_complete := some CbTag.mgr,
          progress := 1, last_trigger_time := 15 }
        (initBState 60) (initBState 60) (initBState 60)).update 1 =
      mgrSys "default.pose"
        { stats := [("comfort", 67/4), ("playfulness", 25), ("vigor", 9/4),
            ("fulfillment", 10)],
          override_next_behavior := none }
        (39/2) 15 0 (initBState 60) (initBState 60) (initBState 60) (initBState 60)
        (initBState 60)
        { active := false, phase := some "relaxing", phase_timer := 1,
          pose_before := none, on_complete := none,
          progress := 1, last_trigger_time := 15 }
        (initBState 60) (initBState 60) (initBState 60) := by
  norm_num +decide [Sys.update, Sys.updateIdleStop, Sys.updateActive, Sys.updateTail, Sys.updateTail2, Sys.activeIdx, Sys.trigger,
    Sys.tryAutomaticTrigger, Sys.selectIdx, Sys.eligibleIdxs, Sys.stopB, Sys.startB,
    Sys.markTriggered, Sys.updateB, findActiveNonIdle, initBehaviors, mkBehavior,
    initBState, specOnlySpec, playingSpec, stretchingSpec, canTrigger, getStat,
    setStat, sortByPrio, insertByPrio, Sys.prioAt, startedSt, applyStatEffects,
    applyCompletionBonus, clamp01, findBonusTarget, Sys.onBehaviorComplete,
    List.range, List.range.loop, List.filter, List.foldl, List.findIdx?,
    min_def, max_def, mgrSys]

/-- C2 counterexample: starting from a fresh system with comfort 10 and
playfulness 50, the 15 s automatic check starts stretching (with the
manager's completion callback); it completes naturally with progress 1
after 0.5 + 3 + 1 seconds — but the completion handler's scan attributes
the completion to the playing behavior (the first registered inactive
behavior with a non-empty bonus map): comfort ends at 10 + 1.5·4.5 =
67/4 and vigor at 9/4 (stretching's +15/+5 bonuses are never applied),
while playfulness drops by playing's −25 bonus to 25 and fulfillment
gains playing's +10. -/
theorem completion_bonus_misattributed :
    ((((Sys.init "default.pose" [("comfort", 10), ("playfulness", 50)] none).update
        15).behaviors[5]?).map (fun b => (b.st.active, b.st.on_complete))
      = some (true, some CbTag.mgr)) ∧
    (((((((Sys.init "default.pose" [("comfort", 10), ("playfulness", 50)] none).update
        15).update 0.5).update 3).update 1).behaviors[5]?).map
          (fun b => (b.st.active, b.st.progress)) = some (false, 1)) ∧
    (getStat ((((((Sys.init "default.pose" [("comfort", 10), ("playfulness", 50)] none).update
        15).update 0.5).update 3).update 1).ctx.stats) "comfort" 0 = 67/4) ∧
    (getStat ((((((Sys.init "default.pose" [("comfort", 10), ("playfulness", 50)] none).update
        15).update 0.5).update 3).update 1).ctx.stats) "vigor" 0 = 9/4) ∧
    (getStat ((((((Sys.init "default.pose" [("comfort", 10), ("playfulness", 50)] none).update
        15).update 0.5).update 3).update 1).ctx.stats) "playfulness" 0 = 25) ∧
    (getStat ((((((Sys.init "default.pose" [("comfort", 10), ("playfulness", 50)] none).update
        15).update 0.5).update 3).update 1).ctx.stats) "fulfillment" 0 = 10) := by
  rw [c2_step1, c2_step2, c2_step3, c2_step4]
  refine ⟨?_, ?_, ?_, ?_, ?_, ?_⟩ <;> norm_num +decide [mgrSys, getStat]

/-- C2 amended: the completion handler applies the bonus of the first
registered inactive behavior with a non-empty completion-bonus map,
scaled by the reported progress — with this behavior set that is the
playing behavior whenever playing is inactive when the handler runs, not
necessarily the behavior that just completed. -/
theorem completion_bonus_first_inactive_with_bonus
    (pose : String) (c : Ctx) (now ci tsc : Q)
    (o0 o1 o2 o3 o4 o5 o6 o7 o8 : BState) (p : Q)
    (h4 : o4.active = false) :
    findBonusTarget (mgrSys pose c now ci tsc o0 o1 o2 o3 o4 o5 o6 o7 o8).behaviors
        = some playingSpec ∧
      ((mgrSys pose c now ci tsc o0 o1 o2 o3 o4 o5 o6 o7 o8).onBehaviorComplete
          true p).ctx.stats = applyCompletionBonus playingSpec c.stats p := by
  have h : findBonusTarget
      (mgrSys pose c now ci tsc o0 o1 o2 o3 o4 o5 o6 o7 o8).behaviors
      = some playingSpec := by
    simp [mgrSys, findBonusTarget, specOnlySpec, playingSpec, h4]
  refine ⟨h, ?_⟩
  unfold Sys.onBehaviorComplete
  rw [h]
  rfl

/-- Witness for the amended C2 at fresh instance states. -/
theorem completion_bonus_first_inactive_with_bonus_witness :
    findBonusTarget (mgrSys "p" { stats := [], override_next_behavior := none }
        0 15 0 (initBState 60) (initBState 60) (initBState 60) (initBState 60)
        (initBState 60) (initBState 45) (initBState 60) (initBState 60)
        (initBState 60)).behaviors = some playingSpec :=
  (completion_bonus_first_inactive_with_bonus "p"
    { stats := [], override_next_behavior := none } 0 15 0
    (initBState 60) (initBState 60) (initBState 60) (initBState 60)
    (initBState 60) (initBState 45) (initBState 60) (initBState 60)
    (initBState 60) 1 rfl).1

/-- C7: in any manager state where stretching is the (only) active
behavior, `trigger("playing")` stops stretching as interrupted —
`completed=False`, so the context (and with it the comfort/vigor bonus
stats) is untouched and the pose is not rewound — then marks playing
triggered and starts it: playing becomes active in its excited phase with
`pose_before` equal to the system pose at the call, i.e. whatever pose
stretching had last set, and the character is posed
"sitting.side.happy". -/
theorem trigger_playing_while_stretching
    (pose : String) (c : Ctx) (now ci tsc : Q)
    (o0 o1 o2 o3 o4 o5 o6 o7 o8 : BState)
    (h0 : o0.active = false) (h1 : o1.active = false) (h2 : o2.active = false)
    (h3 : o3.active = false) (h4 : o4.active = false) (h5 : o5.active = true)
    (h6 : o6.active = false) (h7 : o7.active = false) (h8 : o8.active = false) :
    ((mgrSys pose c now ci tsc o0 o1 o2 o3 o4 o5 o6 o7 o8).trigger "playing" none).2
        = true ∧
      ((mgrSys pose c now ci tsc o0 o1 o2 o3 o4 o5 o6 o7 o8).trigger "playing" none).1
        = mgrSys "sitting.side.happy" c now ci tsc o0 o1 o2 o3
            { active := true, phase := some "excited", phase_timer := 0,
              pose_before := some pose, on_complete := none,
              progress := 0, last_trigger_time := now }
            { o5 with active := false, pose_before := none, on_complete := none }
            o6 o7 o8 := by
  have hA : (mgrSys pose c now ci tsc o0 o1 o2 o3 o4 o5 o6 o7 o8).activeIdx
      = some 5 := by
    norm_num +decide [mgrSys, Sys.activeIdx, findActiveNonIdle,
      h0, h1, h2, h3, h4, h5]
  have hB : (mgrSys pose c now ci tsc o0 o1 o2 o3 o4 o5 o6 o7 o8).stopB 5 false
      = mgrSys pose c now ci tsc o0 o1 o2 o3 o4
          { o5 with active := false, pose_before := none, on_complete := none }
          o6 o7 o8 := by
    cases hpb : o5.pose_before with
    | none =>
        cases hcb : o5.on_complete with
        | none => norm_num +decide [mgrSys, Sys.stopB, h5, hpb, hcb]
        | some tag =>
            cases tag
            norm_num +decide [mgrSys, Sys.stopB, Sys.onBehaviorComplete, h5, hpb, hcb]
    | some p =>
        cases hcb : o5.on_complete with
        | none => norm_num +decide [mgrSys, Sys.stopB, h5, hpb, hcb]
        | some tag =>
            cases tag
            norm_num +decide [mgrSys, Sys.stopB, Sys.onBehaviorComplete, h5, hpb, hcb]
  have hC : (mgrSys pose c now ci tsc o0 o1 o2 o3 o4
        { o5 with active := false, pose_before := none, on_complete := none }
        o6 o7 o8).behaviors.findIdx?
          (fun b : Behavior => decide (b.spec.name = "playing")) = some 4 := by
    norm_num +decide [mgrSys, List.findIdx?, playingSpec, stretchingSpec, specOnlySpec]
  have hD : (mgrSys pose c now ci tsc o0 o1 o2 o3 o4
        { o5 with active := false, pose_before := none, on_complete := none }
        o6 o7 o8).markTriggered 4
      = mgrSys pose c now ci tsc o0 o1 o2 o3
          { o4 with last_trigger_time := now }
          { o5 with active := false, pose_before := none, on_complete := none }
          o6 o7 o8 := by
    norm_num +decide [mgrSys, Sys.markTriggered]
  have hE : (mgrSys pose c now ci tsc o0 o1 o2 o3
        { o4 with last_trigger_time := now }
        { o5 with active := false, pose_before := none, on_complete := none }
        o6 o7 o8).startB 4 none
      = mgrSys "sitting.side.happy" c now ci tsc o0 o1 o2 o3
          { active := true, phase := some "excited", phase_timer := 0,
            pose_before := some pose, on_complete := none,
            progress := 0, last_trigger_time := now }
          { o5 with active := false, pose_before := none, on_complete := none }
          o6 o7 o8 := by
    norm_num +decide [mgrSys, Sys.startB, startedSt, playingSpec, h4]
  rw [trigger_eq]
  simp only [hA, hB, hC, hD, hE]
  exact ⟨trivial, trivial⟩

/-- Witness for C7 at a concrete mid-stretch state. -/
theorem trigger_playing_while_stretching_witness :
    ((mgrSys "leaning_forward.side.stretch"
        { stats := [("comfort", 12)], override_next_behavior := none } 20 15 5
        (initBState 60) (initBState 60) (initBState 60) (initBState 60)
        (initBState 60)
        { active := true, phase := some "stretching", phase_timer := 1,
          pose_before := some "default.pose", on_complete := none,
          progress := 1/3, last_trigger_time := 15 }
        (initBState 60) (initBState 60) (initBState 60)).trigger "playing" none).2
      = true :=
  (trigger_playing_while_stretching "leaning_forward.side.stretch"
    { stats := [("comfort", 12)], override_next_behavior := none } 20 15 5
    (initBState 60) (initBState 60) (initBState 60) (initBState 60)
    (initBState 60)
    { active := true, phase := some "stretching", phase_timer := 1,
      pose_before := some "default.pose", on_complete := none,
      progress := 1/3, last_trigger_time := 15 }
    (initBState 60) (initBState 60) (initBState 60)
    rfl rfl rfl rfl rfl rfl rfl rfl rfl).1

/-! The reaction overlay countdown. -/

/-- A disarmed overlay (timer not positive) never acts again. -/
theorem rmUpdate_dead (w : AWorld) (dt : Q) (dp : String) (h : w.rm.timer ≤ 0) :
    rmUpdate w dt dp = w := by
  unfold rmUpdate
  rw [if_neg (not_lt.mpr h)]

/-- A disarmed overlay stays untouched across any update sequence. -/
theorem rmUpdate_dead_run (dts : List Q) (w : AWorld) (dp : String)
    (h : w.rm.timer ≤ 0) :
    dts.foldl (fun ww dt => rmUpdate ww dt dp) w = w := by
  induction dts with
  | nil => rfl
  | cons dt rest ih =>
      rw [List.foldl_cons, rmUpdate_dead w dt dp h]
      exact ih

/-- An armed overlay whose remaining timer is covered by the total of the
update steps ends reverted: pose forced to the supplied default, bubble
cleared, timer spent. -/
theorem rm_countdown (dts : List Q) :
    ∀ (w : AWorld) (dp : String), 0 < w.rm.timer → w.rm.timer ≤ dts.sum →
      (dts.foldl (fun ww dt => rmUpdate ww dt dp) w).pose = dp ∧
        (dts.foldl (fun ww dt => rmUpdate ww dt dp) w).rm.bubble = none ∧
        (dts.foldl (fun ww dt => rmUpdate ww dt dp) w).rm.timer ≤ 0 := by
  induction dts with
  | nil =>
      intro w dp h1 h2
      simp only [List.sum_nil] at h2
      linarith
  | cons dt rest ih =>
      intro w dp h1 h2
      rw [List.foldl_cons]
      by_cases hc : w.rm.timer - dt ≤ 0
      · have heq : rmUpdate w dt dp =
            { stats := w.stats, pose := dp,
              rm := { timer := w.rm.timer - dt, duration := w.rm.duration,
                      bubble := none } } := by
          unfold rmUpdate
          rw [if_pos h1, if_pos hc]
        rw [heq, rmUpdate_dead_run rest _ dp (by exact hc)]
        exact ⟨rfl, rfl, hc⟩
      · push_neg at hc
        have heq : rmUpdate w dt dp =
            { w with rm := { w.rm with timer := w.rm.timer - dt } } := by
          unfold rmUpdate
          rw [if_pos h1, if_neg (not_le.mpr hc)]
        rw [heq]
        apply ih
        · exact hc
        · rw [List.sum_cons] at h2
          simp only
          linarith

/-- C8: `apply_action("kiss", …)` succeeds, writes affection + 10 clamped
to [0,100], poses the pet "sitting.forward.happy" and arms the overlay
with bubble "heart" and a 2.5 s timer; thereafter any sequence of overlay
updates whose `dt` values total at least 2.5 s ends with the pose
reverted to the supplied default pose and the bubble cleared. -/
theorem kiss_action_and_overlay (w : AWorld) (dts : List Q) (dp : String)
    (hsum : 2.5 ≤ dts.sum) :
    ((applyAction "kiss" w).2 = true) ∧
      (∀ d, getStat (applyAction "kiss" w).1.stats "affection" d
        = clamp01 (getStat w.stats "affection" 0 + 10)) ∧
      ((applyAction "kiss" w).1.pose = "sitting.forward.happy") ∧
      ((applyAction "kiss" w).1.rm
        = { timer := 2.5, duration := 2.5, bubble := some "heart" }) ∧
      ((dts.foldl (fun ww dt => rmUpdate ww dt dp) (applyAction "kiss" w).1).pose = dp ∧
        (dts.foldl (fun ww dt => rmUpdate ww dt dp) (applyAction "kiss" w).1).rm.bubble
          = none) := by
  have hk : applyAction "kiss" w =
      ({ stats := setStat w.stats "affection"
            (clamp01 (getStat w.stats "affection" 0 + 10)),
         pose := "sitting.forward.happy",
         rm := { timer := 2.5, duration := 2.5, bubble := some "heart" } }, true) := by
    norm_num +decide [applyAction, ACTIONS, mkAction, List.find?, triggerFromConfig]
  rw [hk]
  have hrun := rm_countdown dts
      { stats := setStat w.stats "affection"
          (clamp01 (getStat w.stats "affection" 0 + 10)),
        pose := "sitting.forward.happy",
        rm := { timer := 2.5, duration := 2.5, bubble := some "heart" } }
      dp (by norm_num) (by simpa using hsum)
  refine ⟨rfl, ?_, rfl, rfl, hrun.1, hrun.2.1⟩
  intro d
  rw [getStat_setStat]
  simp

/-- Witness for C8 with a single 3-second overlay update. -/
theorem kiss_action_and_overlay_witness :
    (applyAction "kiss"
      { stats := [], pose := "sitting.side.neutral",
        rm := { timer := 0, duration := 0, bubble := none } }).2 = true :=
  (kiss_action_and_overlay
    { stats := [], pose := "sitting.side.neutral",
      rm := { timer := 0, duration := 0, bubble := none } }
    [3] "sitting.side.neutral" (by norm_num)).1

/-! The automatic-selection sort: the head of the stable
sort-by-priority is the earliest-registered minimal-priority candidate. -/

theorem insertByPrio_head (s : Sys) (i : Nat) (l : List Nat) :
    (insertByPrio s i l).head? = some (match l.head? with
      | none => i
      | some j => if s.prioAt j ≤ s.prioAt i then j else i) := by
  cases l with
  | nil => rfl
  | cons j rest => by_cases h : s.prioAt j ≤ s.prioAt i <;> simp [insertByPrio, h]

theorem insertByPrio_length (s : Sys) (i : Nat) (l : List Nat) :
    (insertByPrio s i l).length = l.length + 1 := by
  induction l with
  | nil => rfl
  | cons j rest ih =>
      by_cases h : s.prioAt j ≤ s.prioAt i <;> simp [insertByPrio, h, ih]

theorem foldl_insertByPrio_length (s : Sys) :
    ∀ (l acc : List Nat),
      (l.foldl (fun a j => insertByPrio s j a) acc).length = acc.length + l.length := by
  intro l
  induction l with
  | nil => intro acc; simp
  | cons j rest ih =>
      intro acc
      rw [List.foldl_cons, ih, insertByPrio_length]
      simp [List.length_cons]
      omega

theorem sortByPrio_length (s : Sys) (l : List Nat) :
    (sortByPrio s l).length = l.length := by
  unfold sortByPrio
  rw [foldl_insertByPrio_length]
  simp

/-- The head of the stable priority sort of a strictly ascending
candidate list is a candidate of minimal priority, and the smallest
(earliest-registered) index among the minimal ones. -/
theorem sortByPrio_head_min (s : Sys) :
    ∀ (l : List Nat), l.Pairwise (· < ·) → ∀ b, (sortByPrio s l).head? = some b →
      b ∈ l ∧ ∀ i ∈ l, s.prioAt b < s.prioAt i ∨
        (s.prioAt b = s.prioAt i ∧ b ≤ i) := by
  intro l
  induction l using List.reverseRecOn with
  | nil => intro _ b hb; simp [sortByPrio] at hb
  | append_singleton l' x ih =>
      intro hpw b hb
      have hpw' : l'.Pairwise (· < ·) := (List.pairwise_append.mp hpw).1
      have hlt : ∀ j ∈ l', j < x := by
        intro j hj
        exact (List.pairwise_append.mp hpw).2.2 j hj x (by simp)
      have hsf : sortByPrio s (l' ++ [x]) = insertByPrio s x (sortByPrio s l') := by
        unfold sortByPrio
        rw [List.foldl_append]
        rfl
      rw [hsf, insertByPrio_head] at hb
      cases hh : (sortByPrio s l').head? with
      | none =>
          rw [hh] at hb
          simp only [Option.some.injEq] at hb
          subst hb
          have hnil : l' = [] := by
            have := sortByPrio_length s l'
            rw [List.head?_eq_none_iff] at hh
            rw [hh] at this
            simpa using (List.length_eq_zero.mp this.symm)
          subst hnil
          refine ⟨by simp, ?_⟩
          intro i hi
          simp only [List.nil_append, List.mem_singleton] at hi
          subst hi
          exact Or.inr ⟨rfl, Nat.le_refl _⟩
      | some h0 =>
          rw [hh] at hb
          obtain ⟨hmem0, hmin0⟩ := ih hpw' h0 hh
          simp only [Option.some.injEq] at hb
          by_cases hle2 : s.prioAt h0 ≤ s.prioAt x
          · rw [if_pos hle2] at hb
            subst hb
            refine ⟨List.mem_append_left _ hmem0, ?_⟩
            intro i hi
            rcases List.mem_append.mp hi with hi | hi
            · exact hmin0 i hi
            · rw [List.mem_singleton] at hi
              subst hi
              rcases lt_or_eq_of_le hle2 with hx | hx
              · exact Or.inl hx
              · exact Or.inr ⟨hx, Nat.le_of_lt (hlt _ hmem0)⟩
          · rw [if_neg hle2] at hb
            subst hb
            push_neg at hle2
            refine ⟨List.mem_append_right _ (by simp), ?_⟩
            intro i hi
            rcases List.mem_append.mp hi with hi | hi
            · rcases hmin0 i hi with hlt0 | ⟨heq0, _⟩
              · exact Or.inl (lt_trans hle2 hlt0)
              · exact Or.inl (heq0 ▸ hle2)
            · rw [List.mem_singleton] at hi
              subst hi
              exact Or.inr ⟨rfl, Nat.le_refl _⟩

theorem stopB_length (s : Sys) (i : Nat) (c : Bool) :
    (s.stopB i c).behaviors.length = s.behaviors.length := by
  cases hb : s.behaviors[i]? with
  | none =>
      unfold Sys.stopB
      rw [hb]
  | some b =>
      cases hact : b.st.active with
      | false => rw [stopB_inactive s i c b hb hact]
      | true =>
          rw [stopB_behaviors_active s i c b hb hact]
          simp

theorem markTriggered_length (s : Sys) (i : Nat) :
    (s.markTriggered i).behaviors.length = s.behaviors.length := by
  unfold Sys.markTriggered
  cases hb : s.behaviors[i]? with
  | none => simp [hb]
  | some b => simp [hb]

/-- `start` on an already-active instance is a no-op. -/
theorem startB_active (s : Sys) (i : Nat) (cb : Option CbTag) (b : Behavior)
    (hb : s.behaviors[i]? = some b) (hact : b.st.active = true) :
    s.startB i cb = s := by
  unfold Sys.startB
  rw [hb]
  simp [hact]

/-- After `start`, the targeted instance is active (it was either started
now or already running). -/
theorem startB_always_active_at (s : Sys) (i : Nat) (cb : Option CbTag)
    (b : Behavior) (hb : s.behaviors[i]? = some b) :
    ∃ b', (s.startB i cb).behaviors[i]? = some b' ∧ b'.st.active = true := by
  cases hact : b.st.active with
  | true =>
      refine ⟨b, ?_, hact⟩
      rw [startB_active s i cb b hb hact]
      exact hb
  | false =>
      obtain ⟨b', h1, h2, _, _, _⟩ := startB_inactive_at s i cb b hb hact
      exact ⟨b', h1, h2⟩

/-- C5: whenever automatic selection picks a behavior, the pick is an
eligible candidate whose priority is strictly below every other eligible
candidate's, or equal with the pick registered no later (smaller index);
`_try_automatic_trigger` then reports success and leaves that behavior
active.  Selection is a pure function of the state, hence deterministic
across runs with identical stat inputs and times. -/
theorem auto_select_min_priority (s : Sys) (best : Nat)
    (hsel : s.selectIdx = some best) :
    best ∈ s.eligibleIdxs ∧
      (∀ i ∈ s.eligibleIdxs, s.prioAt best < s.prioAt i ∨
        (s.prioAt best = s.prioAt i ∧ best ≤ i)) ∧
      (s.tryAutomaticTrigger).2 = true ∧
      (∃ b', (s.tryAutomaticTrigger).1.behaviors[best]? = some b' ∧
        b'.st.active = true) := by
  have hpw : s.eligibleIdxs.Pairwise (· < ·) := by
    unfold Sys.eligibleIdxs
    exact (List.pairwise_lt_range _).filter _
  obtain ⟨hmem, hmin⟩ := sortByPrio_head_min s s.eligibleIdxs hpw best hsel
  have hmem' := hmem
  unfold Sys.eligibleIdxs at hmem'
  have hlen : best < s.behaviors.length := by
    have h1 := (List.mem_filter.mp hmem').1
    exact List.mem_range.mp h1
  have key : ∀ (t : Sys), t.behaviors.length = s.behaviors.length →
      ∃ b', (((t.markTriggered best).startB best (some CbTag.mgr)).behaviors)[best]?
          = some b' ∧ b'.st.active = true := by
    intro t hlt
    have hlen2 : best < (t.markTriggered best).behaviors.length := by
      rw [markTriggered_length, hlt]
      exact hlen
    exact startB_always_active_at _ best _ _ (List.getElem?_eq_getElem hlen2)
  refine ⟨hmem, hmin, ?_, ?_⟩
  · simp only [Sys.tryAutomaticTrigger, hsel]
  · simp only [Sys.tryAutomaticTrigger, hsel]
    cases hib : s.behaviors[s.idleIdx]? with
    | none =>
        simp only [hib]
        exact key s rfl
    | some ib =>
        cases hia : ib.st.active with
        | true =>
            simp only [hib, hia, if_true]
            exact key (s.stopB s.idleIdx false) (stopB_length s s.idleIdx false)
        | false =>
            simp only [hib, hia, Bool.false_eq_true, if_false]
            exact key s rfl

/-- Witness for C5: with playfulness 80 and comfort 10 both playing and
stretching are eligible on a fresh system; playing (priority 30,
registered index 4) is selected over stretching (priority 50) and the
automatic trigger succeeds. -/
theorem auto_select_min_priority_witness :
    ((Sys.init "p" [("playfulness", 80), ("comfort", 10)] none).tryAutomaticTrigger).2
      = true :=
  (auto_select_min_priority (Sys.init "p" [("playfulness", 80), ("comfort", 10)] none) 4
    (by norm_num +decide [Sys.selectIdx, Sys.eligibleIdxs, sortByPrio, insertByPrio,
      Sys.prioAt, canTrigger, getStat, Sys.init, initBehaviors, mkBehavior, initBState,
      specOnlySpec, playingSpec, stretchingSpec, List.range, List.range.loop,
      List.filter, List.foldl])).2.2.1

/-! Field-preservation and counting lemmas feeding the mutual-exclusion
invariant. -/

theorem stopB_idleIdx (s : Sys) (i : Nat) (c : Bool) :
    (s.stopB i c).idleIdx = s.idleIdx := by
  unfold Sys.stopB
  cases hb : s.behaviors[i]? with
  | none => rfl
  | some b =>
      cases hact : b.st.active with
      | false => simp [hact]
      | true =>
          cases hcb : b.st.on_complete with
          | none => simp [hact, hcb]
          | some tag =>
              cases tag
              simp only [hact, hcb, Bool.not_true]
              rw [if_neg (by simp)]
              exact (onBehaviorComplete_parts _ _ _).2.1

theorem startB_idleIdx (s : Sys) (i : Nat) (cb : Option CbTag) :
    (s.startB i cb).idleIdx = s.idleIdx := by
  unfold Sys.startB
  cases hb : s.behaviors[i]? with
  | none => rfl
  | some b =>
      cases hact : b.st.active with
      | true => simp [hact]
      | false => cases hm : b.spec.machine <;> simp [hact, hm]

theorem markTriggered_idleIdx (s : Sys) (i : Nat) :
    (s.markTriggered i).idleIdx = s.idleIdx := by
  unfold Sys.markTriggered
  cases hb : s.behaviors[i]? with
  | none => simp [hb]
  | some b => simp [hb]

theorem updateB_idleIdx (s : Sys) (i : Nat) (dt : Q) :
    (s.updateB i dt).idleIdx = s.idleIdx := by
  unfold Sys.updateB
  cases hb : s.behaviors[i]? with
  | none => rfl
  | some b =>
      cases hact : b.st.active with
      | false => simp [hact]
      | true =>
          cases hm : b.spec.machine with
          | base => simp [hact, hm]
          | threePhase ph1 d1 sp ph2 d2 p2 ph3 d3 p3 =>
              simp only [hact, hm, Bool.not_true]
              rw [if_neg (by simp)]
              split
              · split <;> simp
              · split
                · split <;> simp
                · split
                  · split
                    · exact stopB_idleIdx _ i true
                    · simp
                  · simp

theorem trigger_idleIdx (s : Sys) (name : String) (cb : Option CbTag) :
    (s.trigger name cb).1.idleIdx = s.idleIdx := by
  rw [trigger_eq]
  cases hai : s.activeIdx with
  | none =>
      simp only [hai]
      cases hf : s.behaviors.findIdx? (fun b : Behavior => decide (b.spec.name = name)) with
      | none => simp [hf]
      | some j => simp [hf, startB_idleIdx, markTriggered_idleIdx]
  | some i =>
      simp only [hai]
      cases hf : (s.stopB i false).behaviors.findIdx?
          (fun b : Behavior => decide (b.spec.name = name)) with
      | none => simp [hf, stopB_idleIdx]
      | some j =>
          simp [hf, startB_idleIdx, markTriggered_idleIdx, stopB_idleIdx]

/-- Writing back an instance with the same active flag keeps the count. -/
theorem countActive_set_same {bs : List Behavior} :
    ∀ {i : Nat} {b b' : Behavior}, bs[i]? = some b →
      b'.st.active = b.st.active →
      countActive (bs.set i b') = countActive bs := by
  induction bs with
  | nil => intro i b b' hb; simp at hb
  | cons x rest ih =>
      intro i b b' hb heq
      cases i with
      | zero =>
          rw [List.getElem?_cons_zero] at hb
          injection hb with hb; subst hb
          simp [countActive, heq]
      | succ i' =>
          rw [List.getElem?_cons_succ] at hb
          simp [countActive, ih hb heq]

theorem countActive_markTriggered (s : Sys) (i : Nat) :
    countActive (s.markTriggered i).behaviors = countActive s.behaviors := by
  unfold Sys.markTriggered
  cases hb : s.behaviors[i]? with
  | none => simp [hb]
  | some b =>
      simp only [hb]
      exact countActive_set_same hb rfl

theorem countActive_startB (s : Sys) (i : Nat) (cb : Option CbTag) :
    countActive (s.startB i cb).behaviors ≤ countActive s.behaviors + 1 := by
  unfold Sys.startB
  cases hb : s.behaviors[i]? with
  | none => exact Nat.le_succ _
  | some b =>
      cases hact : b.st.active with
      | true =>
          simp only [hact, if_true]
          exact Nat.le_succ _
      | false =>
          cases hm : b.spec.machine with
          | base =>
              simp only [hact, hm, Bool.false_eq_true, if_false]
              exact countActive_set_le_succ s.behaviors _ i
          | threePhase ph1 d1 sp ph2 d2 p2 ph3 d3 p3 =>
              simp only [hact, hm, Bool.false_eq_true, if_false]
              exact countActive_set_le_succ s.behaviors _ i

theorem countActive_updateB (s : Sys) (i : Nat) (dt : Q) :
    countActive (s.updateB i dt).behaviors ≤ countActive s.behaviors := by
  unfold Sys.updateB
  cases hb : s.behaviors[i]? with
  | none => exact Nat.le_refl _
  | some b =>
      cases hact : b.st.active with
      | false => simp [hact]
      | true =>
          cases hm : b.spec.machine with
          | base =>
              simp only [hact, hm, Bool.not_true]
              rw [if_neg (by simp)]
              exact Nat.le_of_eq (countActive_set_same hb (by simp [hact]))
          | threePhase ph1 d1 sp ph2 d2 p2 ph3 d3 p3 =>
              simp only [hact, hm, Bool.not_true]
              rw [if_neg (by simp)]
              split
              · split
                · exact Nat.le_of_eq (countActive_set_same hb (by simp [hact]))
                · exact Nat.le_of_eq (countActive_set_same hb (by simp [hact]))
              · split
                · split
                  · exact Nat.le_of_eq (countActive_set_same hb (by simp [hact]))
                  · exact Nat.le_of_eq (countActive_set_same hb (by simp [hact]))
                · split
                  · split
                    · refine le_trans (countActive_stopB _ i true) ?_
                      exact Nat.le_of_eq (countActive_set_same hb (by simp [hact]))
                    · exact Nat.le_of_eq (countActive_set_same hb (by simp [hact]))
                  · exact Nat.le_of_eq (countActive_set_same hb (by simp [hact]))

/-! Preservation of the mutual-exclusion bound by every manager path. -/

theorem allInactive_NII {s : Sys} (h : AllInactive s.behaviors) :
    NonIdleInactive s :=
  fun j b hb _ => allInactive_getElem? h j b hb

theorem NII_allInactive_of_idle_inactive {s : Sys} (h : NonIdleInactive s)
    (hidle : ∀ b, s.behaviors[s.idleIdx]? = some b → b.st.active = false) :
    AllInactive s.behaviors := by
  intro b hbmem
  obtain ⟨j, hj⟩ := List.mem_iff_getElem?.mp hbmem
  by_cases hji : j = s.idleIdx
  · subst hji
    exact hidle b hj
  · exact h j b hj hji

theorem stopB_getElem_ne (s : Sys) (i : Nat) (c : Bool) {j : Nat} (hne : j ≠ i) :
    (s.stopB i c).behaviors[j]? = s.behaviors[j]? := by
  cases hb : s.behaviors[i]? with
  | none =>
      have heq : s.stopB i c = s := by unfold Sys.stopB; rw [hb]
      rw [heq]
  | some b =>
      cases hact : b.st.active with
      | false => rw [stopB_inactive s i c b hb hact]
      | true =>
          rw [stopB_behaviors_active s i c b hb hact]
          exact List.getElem?_set_ne (fun e => hne e.symm)

theorem stopB_NII {s : Sys} (h : NonIdleInactive s) (i : Nat) (c : Bool) :
    NonIdleInactive (s.stopB i c) := by
  intro j b hb hji
  rw [stopB_idleIdx] at hji
  by_cases hjieq : j = i
  · subst hjieq
    cases hb0 : s.behaviors[j]? with
    | none =>
        have heq : s.stopB j c = s := by unfold Sys.stopB; rw [hb0]
        rw [heq, hb0] at hb
        exact Option.noConfusion hb
    | some b0 =>
        obtain ⟨b', hb', hact'⟩ := stopB_inactive_after s j c b0 hb0
        have he := hb'.symm.trans hb
        injection he with he
        rw [← he]
        exact hact'
  · rw [stopB_getElem_ne s i c hjieq] at hb
    exact h j b hb hji

/-- `update` on an inactive behavior instance is the identity. -/
theorem updateB_inactive (s : Sys) (i : Nat) (dt : Q) (b : Behavior)
    (hb : s.behaviors[i]? = some b) (hact : b.st.active = false) :
    s.updateB i dt = s := by
  unfold Sys.updateB
  rw [hb]
  simp [hact]

theorem updateB_getElem_ne (s : Sys) (i : Nat) (dt : Q) {j : Nat} (hne : j ≠ i) :
    (s.updateB i dt).behaviors[j]? = s.behaviors[j]? := by
  have hset : ∀ (b' : Behavior), (s.behaviors.set i b')[j]? = s.behaviors[j]? :=
    fun b' => List.getElem?_set_ne (fun e => hne e.symm)
  unfold Sys.updateB
  cases hb : s.behaviors[i]? with
  | none => rfl
  | some b =>
      cases hact : b.st.active with
      | false => simp [hact]
      | true =>
          cases hm : b.spec.machine with
          | base => simp [hact, hm, hset]
          | threePhase ph1 d1 sp ph2 d2 p2 ph3 d3 p3 =>
              simp only [hact, hm, Bool.not_true]
              rw [if_neg (by simp)]
              split
              · split <;> simp [hset]
              · split
                · split <;> simp [hset]
                · split
                  · split
                    · rw [stopB_getElem_ne _ i true hne]
                      exact hset _
                    · simp [hset]
                  · simp [hset]

theorem updateB_NII {s : Sys} (h : NonIdleInactive s) (i : Nat) (dt : Q) :
    NonIdleInactive (s.updateB i dt) := by
  intro j b hb hji
  rw [updateB_idleIdx] at hji
  by_cases hjieq : j = i
  · subst hjieq
    cases hb0 : s.behaviors[j]? with
    | none =>
        have heq : s.updateB j dt = s := by unfold Sys.updateB; rw [hb0]
        rw [heq, hb0] at hb
        exact Option.noConfusion hb
    | some b0 =>
        by_cases hact0 : b0.st.active = true
        · exact absurd (h j b0 hb0 hji) (by simp [hact0])
        · rw [updateB_inactive s j dt b0 hb0 (by simpa using hact0), hb0] at hb
          injection hb with hb
          rw [← hb]
          simpa using hact0
  · rw [updateB_getElem_ne s i dt hjieq] at hb
    exact h j b hb hji

theorem activeIdx_idle_NII {s : Sys} (h : s.activeIdx = some s.idleIdx) :
    NonIdleInactive s := by
  cases hf : findActiveNonIdle s.behaviors s.idleIdx 0 with
  | some j =>
      exfalso
      have hj : s.activeIdx = some j := by
        unfold Sys.activeIdx
        rw [hf]
      rw [h] at hj
      injection hj with hj
      exact (findActiveNonIdle_some hf).1 hj.symm
  | none =>
      intro j b hb hji
      exact findActiveNonIdle_none hf j b hb (by omega)

theorem trigger_count {s : Sys} (hc : countActive s.behaviors ≤ 1)
    (name : String) (cb : Option CbTag) :
    countActive (s.trigger name cb).1.behaviors ≤ 1 := by
  rw [trigger_eq]
  cases hai : s.activeIdx with
  | none =>
      have h0 : countActive s.behaviors = 0 :=
        countActive_of_allInactive (activeIdx_none_allInactive hai)
      simp only [hai]
      cases hf : s.behaviors.findIdx?
          (fun b : Behavior => decide (b.spec.name = name)) with
      | none =>
          simp only [hf]
          omega
      | some j =>
          simp only [hf]
          have h1 := countActive_startB (s.markTriggered j) j cb
          rw [countActive_markTriggered] at h1
          omega
  | some i =>
      have h0 : countActive (s.stopB i false).behaviors = 0 :=
        countActive_of_allInactive (stopB_allInactive s i false hc hai)
      simp only [hai]
      cases hf : (s.stopB i false).behaviors.findIdx?
          (fun b : Behavior => decide (b.spec.name = name)) with
      | none =>
          simp only [hf]
          omega
      | some j =>
          simp only [hf]
          have h1 := countActive_startB ((s.stopB i false).markTriggered j) j cb
          rw [countActive_markTriggered] at h1
          omega

theorem trigger_false_NII {s : Sys} (h : NonIdleInactive s)
    (name : String) (cb : Option CbTag)
    (hfail : (s.trigger name cb).2 = false) :
    NonIdleInactive (s.trigger name cb).1 := by
  rw [trigger_eq] at hfail ⊢
  cases hai : s.activeIdx with
  | none =>
      simp only [hai] at hfail ⊢
      cases hf : s.behaviors.findIdx?
          (fun b : Behavior => decide (b.spec.name = name)) with
      | none =>
          simp only [hf]
          exact h
      | some j =>
          rw [hf] at hfail
          exact absurd hfail (by simp)
  | some i =>
      simp only [hai] at hfail ⊢
      cases hf : (s.stopB i false).behaviors.findIdx?
          (fun b : Behavior => decide (b.spec.name = name)) with
      | none =>
          simp only [hf]
          exact stopB_NII h i false
      | some j =>
          rw [hf] at hfail
          exact absurd hfail (by simp)

/-- A failed automatic selection changes nothing. -/
theorem tryAuto_false_eq {s : Sys} (hfail : (s.tryAutomaticTrigger).2 = false) :
    (s.tryAutomaticTrigger).1 = s := by
  unfold Sys.tryAutomaticTrigger at hfail ⊢
  cases hsel : s.selectIdx with
  | none => simp only [hsel]
  | some best =>
      rw [hsel] at hfail
      exact absurd hfail (by simp)

theorem tryAuto_count {s : Sys} (hc : countActive s.behaviors ≤ 1)
    (hn : NonIdleInactive s) :
    countActive (s.tryAutomaticTrigger).1.behaviors ≤ 1 := by
  unfold Sys.tryAutomaticTrigger
  cases hsel : s.selectIdx with
  | none =>
      simp only [hsel]
      exact hc
  | some best =>
      simp only [hsel]
      have hall : ∀ (t : Sys), AllInactive t.behaviors →
          countActive ((t.markTriggered best).startB best
            (some CbTag.mgr)).behaviors ≤ 1 := by
        intro t ht
        have h0 : countActive t.behaviors = 0 := countActive_of_allInactive ht
        have h1 := countActive_startB (t.markTriggered best) best (some CbTag.mgr)
        rw [countActive_markTriggered] at h1
        omega
      cases hib : s.behaviors[s.idleIdx]? with
      | none =>
          simp only [hib]
          apply hall
          apply NII_allInactive_of_idle_inactive hn
          intro b hb
          rw [hib] at hb
          exact Option.noConfusion hb
      | some ib =>
          cases hia : ib.st.active with
          | false =>
              simp only [hib, hia, Bool.false_eq_true, if_false]
              apply hall
              apply NII_allInactive_of_idle_inactive hn
              intro b hb
              rw [hib] at hb
              injection hb with hb
              rw [← hb]
              exact hia
          | true =>
              simp only [hib, hia, if_true]
              apply hall
              apply NII_allInactive_of_idle_inactive (stopB_NII hn s.idleIdx false)
              intro b hb
              rw [stopB_idleIdx] at hb
              obtain ⟨b', hb', hact'⟩ :=
                stopB_inactive_after s s.idleIdx false ib hib
              have he := hb'.symm.trans hb
              injection he with he
              rw [← he]
              exact hact'

theorem tryAuto_NII_of_false {s : Sys} (hn : NonIdleInactive s)
    (hfail : (s.tryAutomaticTrigger).2 = false) :
    NonIdleInactive (s.tryAutomaticTrigger).1 := by
  rw [tryAuto_false_eq hfail]
  exact hn

/-- The idle fallback preserves the mutual-exclusion bound. -/
theorem fallback_count (t : Sys) (hc : countActive t.behaviors ≤ 1)
    (hn : NonIdleInactive t) :
    countActive (match t.behaviors[t.idleIdx]? with
      | some ib => if ib.st.active then t else t.startB t.idleIdx none
      | none => t).behaviors ≤ 1 := by
  cases hib : t.behaviors[t.idleIdx]? with
  | none => exact hc
  | some ib =>
      cases hia : ib.st.active with
      | true =>
          simp only [hia, if_true]
          exact hc
      | false =>
          simp only [hia, Bool.false_eq_true, if_false]
          have hall : AllInactive t.behaviors := by
            apply NII_allInactive_of_idle_inactive hn
            intro b hb
            rw [hib] at hb
            injection hb with hb
            rw [← hb]
            exact hia
          have h0 : countActive t.behaviors = 0 := countActive_of_allInactive hall
          have h1 := countActive_startB t t.idleIdx none
          omega

theorem updateTail2_count {s4 : Sys} (hc : countActive s4.behaviors ≤ 1)
    (hn : NonIdleInactive s4) (dt : Q) :
    countActive (s4.updateTail2 dt).behaviors ≤ 1 := by
  unfold Sys.updateTail2
  by_cases hdue : s4.time_since_check + dt ≥ s4.check_interval
  · simp only [hdue, ge_iff_le, if_pos]
    cases hauto : (Sys.tryAutomaticTrigger
        { s4 with time_since_check := 0 }).2 with
    | true =>
        simp only [hauto, if_true]
        exact tryAuto_count hc hn
    | false =>
        simp only [hauto, Bool.false_eq_true, if_false]
        rw [tryAuto_false_eq hauto]
        exact fallback_count { s4 with time_since_check := 0 } hc hn
  · simp only [ge_iff_le] at hdue ⊢
    rw [if_neg hdue]
    simp only [Bool.false_eq_true, if_false]
    exact fallback_count
      { s4 with time_since_check := s4.time_since_check + dt } hc hn

theorem updateTail_count {s : Sys} (hc : countActive s.behaviors ≤ 1)
    (hn : NonIdleInactive s) (dt : Q) :
    countActive (s.updateTail dt).behaviors ≤ 1 := by
  unfold Sys.updateTail
  cases hov : s.ctx.override_next_behavior with
  | none =>
      simp only [hov]
      exact updateTail2_count hc hn dt
  | some ov =>
      by_cases hemp : ov = ""
      · simp only [hov, if_pos hemp]
        exact updateTail2_count hc hn dt
      · simp only [hov, if_neg hemp]
        cases htr : (Sys.trigger
            { s with ctx := { s.ctx with override_next_behavior := none } }
            ov none).2 with
        | true =>
            simp only [htr, if_true]
            exact trigger_count
              (s := { s with ctx := { s.ctx with override_next_behavior := none } })
              hc ov none
        | false =>
            simp only [htr, Bool.false_eq_true, if_false]
            exact updateTail2_count
              (trigger_count
                (s := { s with ctx := { s.ctx with override_next_behavior := none } })
                hc ov none)
              (trigger_false_NII
                (s := { s with ctx := { s.ctx with override_next_behavior := none } })
                hn ov none htr) dt

theorem updateIdleStop_count (s1 : Sys) (i : Nat) :
    countActive (s1.updateIdleStop i).behaviors ≤ countActive s1.behaviors := by
  unfold Sys.updateIdleStop
  by_cases hne : i ≠ s1.idleIdx
  · rw [if_pos hne]
    cases hib : s1.behaviors[s1.idleIdx]? with
    | none => exact Nat.le_refl _
    | some ib =>
        cases hia : ib.st.active with
        | true =>
            simp only [hia, if_true]
            exact countActive_stopB s1 s1.idleIdx false
        | false =>
            simp only [hia, Bool.false_eq_true, if_false]
            exact Nat.le_refl _
  · rw [if_neg hne]

theorem updateIdleStop_idleIdx (s1 : Sys) (i : Nat) :
    (s1.updateIdleStop i).idleIdx = s1.idleIdx := by
  unfold Sys.updateIdleStop
  by_cases hne : i ≠ s1.idleIdx
  · rw [if_pos hne]
    cases hib : s1.behaviors[s1.idleIdx]? with
    | none => rfl
    | some ib =>
        cases hia : ib.st.active with
        | true =>
            simp only [hia, if_true]
            exact stopB_idleIdx s1 s1.idleIdx false
        | false => simp [hia]
  · rw [if_neg hne]

theorem updateIdleStop_NII {s1 : Sys} (hn : NonIdleInactive s1) (i : Nat) :
    NonIdleInactive (s1.updateIdleStop i) := by
  unfold Sys.updateIdleStop
  by_cases hne : i ≠ s1.idleIdx
  · rw [if_pos hne]
    cases hib : s1.behaviors[s1.idleIdx]? with
    | none => exact hn
    | some ib =>
        cases hia : ib.st.active with
        | true =>
            simp only [hia, if_true]
            exact stopB_NII hn s1.idleIdx false
        | false =>
            simp only [hia, Bool.false_eq_true, if_false]
            exact hn
  · rw [if_neg hne]
    exact hn

theorem updateActive_count (s2 : Sys) (i : Nat) (dt : Q) :
    countActive (s2.updateActive i dt).behaviors ≤ countActive s2.behaviors := by
  unfold Sys.updateActive
  cases hsb : (s2.updateB i dt).behaviors[i]? with
  | none => exact countActive_updateB s2 i dt
  | some b =>
      simp only [hsb]
      exact countActive_updateB s2 i dt

theorem updateActive_idleIdx (s2 : Sys) (i : Nat) (dt : Q) :
    (s2.updateActive i dt).idleIdx = s2.idleIdx := by
  unfold Sys.updateActive
  cases hsb : (s2.updateB i dt).behaviors[i]? with
  | none => exact updateB_idleIdx s2 i dt
  | some b =>
      simp only [hsb]
      exact updateB_idleIdx s2 i dt

theorem updateActive_NII {s2 : Sys} (hn : NonIdleInactive s2) (i : Nat) (dt : Q) :
    NonIdleInactive (s2.updateActive i dt) := by
  unfold Sys.updateActive
  cases hsb : (s2.updateB i dt).behaviors[i]? with
  | none => exact updateB_NII hn i dt
  | some b =>
      simp only [hsb]
      exact updateB_NII hn i dt

/-- `update` preserves the mutual-exclusion bound. -/
theorem update_count {s : Sys} (hc : countActive s.behaviors ≤ 1) (dt : Q) :
    countActive (s.update dt).behaviors ≤ 1 := by
  unfold Sys.update
  cases hai : ({ s with current_time := s.current_time + dt } : Sys).activeIdx with
  | none =>
      simp only [hai]
      exact updateTail_count
        (s := ({ s with current_time := s.current_time + dt } : Sys))
        hc (allInactive_NII (activeIdx_none_allInactive hai)) dt
  | some i =>
      simp only [hai]
      have hid3 : ((({ s with current_time := s.current_time + dt } : Sys).updateIdleStop
          i).updateActive i dt).idleIdx = s.idleIdx := by
        rw [updateActive_idleIdx, updateIdleStop_idleIdx]
      have hcnt3 : countActive ((({ s with
          current_time := s.current_time + dt } : Sys).updateIdleStop
          i).updateActive i dt).behaviors ≤ 1 :=
        le_trans (updateActive_count _ i dt)
          (le_trans (updateIdleStop_count _ i) hc)
      by_cases hne : i = s.idleIdx
      · rw [if_neg (by rw [hid3]; simpa using hne)]
        apply updateTail_count hcnt3 ?_ dt
        apply updateActive_NII ?_ i dt
        apply updateIdleStop_NII ?_ i
        apply activeIdx_idle_NII
          (s := ({ s with current_time := s.current_time + dt } : Sys))
        rw [hai, hne]
      · rw [if_pos (by rw [hid3]; simpa using hne)]
        exact hcnt3

/-- C3: along every sequence of the scheduler's public operations
(`trigger` and `update`) from a freshly constructed manager, at most one
behavior instance is active between calls — in fact the idle/non-idle
overlap the spec tolerates never even arises on these paths, so the
claimed bound (at most one active, with the only exception being that
transient overlap) holds. -/
theorem at_most_one_active (s : Sys) (h : Reachable s) :
    countActive s.behaviors ≤ 1 := by
  induction h with
  | init pose0 stats0 ovr =>
      norm_num [Sys.init, initBehaviors, mkBehavior, initBState, countActive]
  | trigger s name cb hs ih => exact trigger_count ih name cb
  | update s dt hs ih => exact update_count ih dt

/-- Witness for C3 at the freshly constructed system. -/
theorem at_most_one_active_witness :
    countActive (Sys.init "sitting.side.neutral" [] none).behaviors ≤ 1 :=
  at_most_one_active (Sys.init "sitting.side.neutral" [] none)
    (Reachable.init "sitting.side.neutral" [] none)

/-! C6: a full playing run aligned with the phase boundaries.  The stats
side first: within the 7-second window, starting from the stated safe
ranges, no clamp saturates, so the continuous drains and the completion
bonus accumulate exactly. -/

/-- Every step of a `stepsOk` sequence is positive. -/
theorem stepsOk_pos {d : Q} : ∀ {L : List Q} {t : Q},
    stepsOk t d L → ∀ x ∈ L, 0 < x := by
  intro L
  induction L with
  | nil => intro t _ x hx; cases hx
  | cons a rest ih =>
      intro t h x hx
      obtain ⟨hpos, _, hrest⟩ := h
      rcases List.mem_cons.mp hx with rfl | hx
      · exact hpos
      · exact ih hrest x hx

/-- The continuous effects of one playing tick written out: playfulness
−2/s, energy −0.5/s, stimulation +1/s, each clamped. -/
theorem applyStatEffects_playing (cur : Stats) (dt : Q) :
    applyStatEffects playingSpec cur dt =
      setStat (setStat (setStat cur
          "playfulness" (clamp01 (getStat cur "playfulness" 0 + (-2) * dt)))
          "energy" (clamp01 (getStat cur "energy" 0 + (-0.5) * dt)))
          "stimulation" (clamp01 (getStat cur "stimulation" 0 + (1:Q) * dt)) := by
  simp only [applyStatEffects, playingSpec, List.foldl_cons, List.foldl_nil]
  rw [getStat_setStat, if_neg (by decide), getStat_setStat, if_neg (by decide),
    getStat_setStat, if_neg (by decide)]

/-- The playing completion bonus written out: playfulness −25·progress,
fulfillment +10·progress, each clamped. -/
theorem applyCompletionBonus_playing (cur : Stats) (pr : Q) :
    applyCompletionBonus playingSpec cur pr =
      setStat (setStat cur
          "playfulness" (clamp01 (getStat cur "playfulness" 0 + (-25) * pr)))
          "fulfillment" (clamp01 (getStat cur "fulfillment" 0 + (10:Q) * pr)) := by
  simp only [applyCompletionBonus, playingSpec, List.foldl_cons, List.foldl_nil]
  rw [getStat_setStat, if_neg (by decide)]

/-- One playing tick keeps the exact (unclamped) stat accounting, as long
as the run stays within its 7-second window and started in the safe
ranges. -/
theorem playStats_step {p0 e0 q0 f0 T dt : Q} {cur : Stats}
    (h : PlayStats p0 e0 q0 f0 T cur)
    (hb : 39 ≤ p0 ∧ p0 ≤ 100 ∧ 7/2 ≤ e0 ∧ e0 ≤ 100 ∧
      0 ≤ q0 ∧ q0 ≤ 93 ∧ 0 ≤ f0 ∧ f0 ≤ 90)
    (hT : 0 ≤ T) (hdt : 0 < dt) (hsum : T + dt ≤ 7) :
    PlayStats p0 e0 q0 f0 (T + dt) (applyStatEffects playingSpec cur dt) := by
  obtain ⟨hp, he, hq, hf⟩ := h
  obtain ⟨b1, b2, b3, b4, b5, b6, b7, b8⟩ := hb
  rw [applyStatEffects_playing]
  refine ⟨fun d => ?_, fun d => ?_, fun d => ?_, fun d => ?_⟩
  · rw [getStat_setStat, if_neg (by decide), getStat_setStat, if_neg (by decide),
      getStat_setStat, if_pos rfl, hp,
      clamp01_eq_self (p0 - 2 * T + (-2) * dt) (by linarith) (by linarith)]
    ring
  · rw [getStat_setStat, if_neg (by decide), getStat_setStat, if_pos rfl, he,
      clamp01_eq_self (e0 - T / 2 + (-0.5) * dt) (by norm_num; linarith)
        (by norm_num; linarith)]
    ring
  · rw [getStat_setStat, if_pos rfl, hq,
      clamp01_eq_self (q0 + T + (1:Q) * dt) (by linarith) (by linarith)]
    ring
  · rw [getStat_setStat, if_neg (by decide), getStat_setStat, if_neg (by decide),
      getStat_setStat, if_neg (by decide), hf]

/-- The exact stat accounting iterated over any in-window list of
positive steps. -/
theorem playStats_run {p0 e0 q0 f0 : Q}
    (hb : 39 ≤ p0 ∧ p0 ≤ 100 ∧ 7/2 ≤ e0 ∧ e0 ≤ 100 ∧
      0 ≤ q0 ∧ q0 ≤ 93 ∧ 0 ≤ f0 ∧ f0 ≤ 90) :
    ∀ (L : List Q), (∀ x ∈ L, 0 < x) → ∀ (T0 : Q) (cur : Stats),
      0 ≤ T0 → T0 + L.sum ≤ 7 → PlayStats p0 e0 q0 f0 T0 cur →
      PlayStats p0 e0 q0 f0 (T0 + L.sum) (iterEffects cur L) := by
  intro L
  induction L with
  | nil =>
      intro _ T0 cur _ _ h
      simpa [iterEffects] using h
  | cons a rest ih =>
      intro hpos T0 cur hT0 hsum h
      have ha : 0 < a := hpos a (List.mem_cons_self a rest)
      have hrestpos : ∀ x ∈ rest, 0 < x :=
        fun x hx => hpos x (List.mem_cons_of_mem a hx)
      have hrsum : 0 ≤ rest.sum :=
        List.sum_nonneg (fun x hx => le_of_lt (hrestpos x hx))
      have hsum' : T0 + (a + rest.sum) ≤ 7 := by
        simpa [List.sum_cons] using hsum
      have hstep : PlayStats p0 e0 q0 f0 (T0 + a)
          (applyStatEffects playingSpec cur a) :=
        playStats_step h hb hT0 ha (by linarith)
      have hrec := ih hrestpos (T0 + a) (applyStatEffects playingSpec cur a)
        (by linarith) (by linarith) hstep
      simpa [iterEffects, List.foldl_cons, List.sum_cons, add_assoc] using hrec

/-- The last tick of the run: completion bonus at progress 1 followed by
the final tick's continuous effects, landing exactly at playfulness
−39 total and fulfillment +10. -/
theorem playStats_finish {p0 e0 q0 f0 a3 : Q} {cur : Stats}
    (h : PlayStats p0 e0 q0 f0 (7 - a3) cur)
    (hb : 39 ≤ p0 ∧ p0 ≤ 100 ∧ 7/2 ≤ e0 ∧ e0 ≤ 100 ∧
      0 ≤ q0 ∧ q0 ≤ 93 ∧ 0 ≤ f0 ∧ f0 ≤ 90)
    (ha : 0 < a3) (ha1 : a3 ≤ 1) :
    (∀ d, getStat (applyStatEffects playingSpec
        (applyCompletionBonus playingSpec cur 1) a3) "playfulness" d = p0 - 39) ∧
      (∀ d, getStat (applyStatEffects playingSpec
        (applyCompletionBonus playingSpec cur 1) a3) "fulfillment" d = f0 + 10) := by
  obtain ⟨hp, he, hq, hf⟩ := h
  obtain ⟨b1, b2, b3, b4, b5, b6, b7, b8⟩ := hb
  have hbp : ∀ d, getStat (applyCompletionBonus playingSpec cur 1)
      "playfulness" d = p0 - 2 * (7 - a3) + (-25) * 1 := by
    intro d
    rw [applyCompletionBonus_playing, getStat_setStat, if_neg (by decide),
      getStat_setStat, if_pos rfl, hp,
      clamp01_eq_self (p0 - 2 * (7 - a3) + (-25) * 1) (by linarith) (by linarith)]
  have hbf : ∀ d, getStat (applyCompletionBonus playingSpec cur 1)
      "fulfillment" d = f0 + (10:Q) * 1 := by
    intro d
    rw [applyCompletionBonus_playing, getStat_setStat, if_pos rfl, hf,
      clamp01_eq_self (f0 + (10:Q) * 1) (by linarith) (by linarith)]
  refine ⟨fun d => ?_, fun d => ?_⟩
  · rw [applyStatEffects_playing, getStat_setStat, if_neg (by decide),
      getStat_setStat, if_neg (by decide), getStat_setStat, if_pos rfl, hbp,
      clamp01_eq_self (p0 - 2 * (7 - a3) + (-25) * 1 + (-2) * a3)
        (by linarith) (by linarith)]
    ring
  · rw [applyStatEffects_playing, getStat_setStat, if_neg (by decide),
      getStat_setStat, if_neg (by decide), getStat_setStat, if_neg (by decide),
      hbf]
    ring

/-! The system side: what one `update(dt)` call does to a mid-run playing
system, phase by phase. -/

set_option maxHeartbeats 1600000 in
/-- An in-window tick of the excited phase: the timer advances, the
continuous effects land, nothing else moves. -/
theorem playRun_step1 (pose pose0 : String) (tm prog ltt : Q) (cur : Stats)
    (now tsc dt : Q) (hlt : tm + dt < 1) :
    Sys.update (playRunSys pose pose0 "excited" tm prog ltt cur now tsc) dt
      = playRunSys pose pose0 "excited" (tm + dt) prog ltt
          (applyStatEffects playingSpec cur dt) (now + dt) tsc := by
  have hnot : ¬ ((1:Q) ≤ tm + dt) := not_le.mpr hlt
  norm_num +decide [Sys.update, Sys.updateIdleStop, Sys.updateActive,
    Sys.activeIdx, findActiveNonIdle, Sys.updateB, playRunSys, mgrSys,
    initBState, playingSpec, stretchingSpec, specOnlySpec, hnot]

set_option maxHeartbeats 1600000 in
/-- The excited→playing boundary: pose forced to the playing-phase pose,
timer reset, progress untouched. -/
theorem playRun_trans1 (pose pose0 : String) (tm prog ltt : Q) (cur : Stats)
    (now tsc dt : Q) (hge : (1:Q) ≤ tm + dt) :
    Sys.update (playRunSys pose pose0 "excited" tm prog ltt cur now tsc) dt
      = playRunSys "sitting_silly.side.happy" pose0 "playing" 0 prog ltt
          (applyStatEffects playingSpec cur dt) (now + dt) tsc := by
  norm_num +decide [Sys.update, Sys.updateIdleStop, Sys.updateActive,
    Sys.activeIdx, findActiveNonIdle, Sys.updateB, playRunSys, mgrSys,
    initBState, playingSpec, stretchingSpec, specOnlySpec, hge]

set_option maxHeartbeats 1600000 in
/-- An in-window tick of the main playing phase: timer advances and
progress is recomputed as `min(1, t/5)`. -/
theorem playRun_step2 (pose pose0 : String) (tm prog ltt : Q) (cur : Stats)
    (now tsc dt : Q) (hlt : tm + dt < 5) :
    Sys.update (playRunSys pose pose0 "playing" tm prog ltt cur now tsc) dt
      = playRunSys pose pose0 "playing" (tm + dt) (min 1 ((tm + dt) / 5)) ltt
          (applyStatEffects playingSpec cur dt) (now + dt) tsc := by
  have hnot : ¬ ((5:Q) ≤ tm + dt) := not_le.mpr hlt
  norm_num +decide [Sys.update, Sys.updateIdleStop, Sys.updateActive,
    Sys.activeIdx, findActiveNonIdle, Sys.updateB, playRunSys, mgrSys,
    initBState, playingSpec, stretchingSpec, specOnlySpec, hnot]

set_option maxHeartbeats 1600000 in
/-- The playing→tired boundary: pose forced to the tired-phase pose,
timer reset, progress frozen at `min(1, t/5)`. -/
theorem playRun_trans2 (pose pose0 : String) (tm prog ltt : Q) (cur : Stats)
    (now tsc dt : Q) (hge : (5:Q) ≤ tm + dt) :
    Sys.update (playRunSys pose pose0 "playing" tm prog ltt cur now tsc) dt
      = playRunSys "sitting.side.neutral" pose0 "tired" 0
          (min 1 ((tm + dt) / 5)) ltt
          (applyStatEffects playingSpec cur dt) (now + dt) tsc := by
  norm_num +decide [Sys.update, Sys.updateIdleStop, Sys.updateActive,
    Sys.activeIdx, findActiveNonIdle, Sys.updateB, playRunSys, mgrSys,
    initBState, playingSpec, stretchingSpec, specOnlySpec, hge]

set_option maxHeartbeats 1600000 in
/-- An in-window tick of the tired phase: only the timer and the
continuous effects move. -/
theorem playRun_step3 (pose pose0 : String) (tm prog ltt : Q) (cur : Stats)
    (now tsc dt : Q) (hlt : tm + dt < 1) :
    Sys.update (playRunSys pose pose0 "tired" tm prog ltt cur now tsc) dt
      = playRunSys pose pose0 "tired" (tm + dt) prog ltt
          (applyStatEffects playingSpec cur dt) (now + dt) tsc := by
  have hnot : ¬ ((1:Q) ≤ tm + dt) := not_le.mpr hlt
  norm_num +decide [Sys.update, Sys.updateIdleStop, Sys.updateActive,
    Sys.activeIdx, findActiveNonIdle, Sys.updateB, playRunSys, mgrSys,
    initBState, playingSpec, stretchingSpec, specOnlySpec, hnot]

set_option maxHeartbeats 1600000 in
/-- The tired-phase expiry: the instance stops as completed, the pose
snapshotted at start is restored, the completion handler applies the
first inactive non-empty bonus — playing's own, every other instance
being fresh — scaled by the frozen progress, and the same tick's
continuous effects still land afterwards; the early return keeps the
periodic-check clock frozen. -/
theorem playRun_final (pose pose0 : String) (tm prog ltt : Q) (cur : Stats)
    (now tsc dt : Q) (hge : (1:Q) ≤ tm + dt) (hne : pose0 ≠ "") :
    Sys.update (playRunSys pose pose0 "tired" tm prog ltt cur now tsc) dt
      = mgrSys pose0
          { stats := applyStatEffects playingSpec
              (applyCompletionBonus playingSpec cur prog) dt,
            override_next_behavior := none }
          (now + dt) 15 tsc
          (initBState 60) (initBState 60) (initBState 60) (initBState 60)
          { active := false, phase := some "tired", phase_timer := tm + dt,
            pose_before := none, on_complete := none, progress := prog,
            last_trigger_time := ltt }
          (initBState 45) (initBState 60) (initBState 60) (initBState 60) := by
  norm_num +decide [Sys.update, Sys.updateIdleStop, Sys.updateActive,
    Sys.activeIdx, findActiveNonIdle, Sys.updateB, Sys.stopB,
    Sys.onBehaviorComplete, findBonusTarget, playRunSys, mgrSys,
    initBState, playingSpec, stretchingSpec, specOnlySpec, hge, hne]

/-- Folding any in-window excited-phase step list: timers and the clock
accumulate the sum, the effects iterate, nothing else moves. -/
theorem playRun_run1 : ∀ (M : List Q) (pose pose0 : String) (tm prog ltt : Q)
    (cur : Stats) (now tsc : Q), stepsOk tm 1 M →
    M.foldl Sys.update (playRunSys pose pose0 "excited" tm prog ltt cur now tsc)
      = playRunSys pose pose0 "excited" (tm + M.sum) prog ltt
          (iterEffects cur M) (now + M.sum) tsc := by
  intro M
  induction M with
  | nil =>
      intro pose pose0 tm prog ltt cur now tsc _
      simp [iterEffects]
  | cons a rest ih =>
      intro pose pose0 tm prog ltt cur now tsc hok
      obtain ⟨hpos, hlt, hrest⟩ := hok
      rw [List.foldl_cons,
        playRun_step1 pose pose0 tm prog ltt cur now tsc a hlt,
        ih pose pose0 (tm + a) prog ltt (applyStatEffects playingSpec cur a)
          (now + a) tsc hrest]
      simp [iterEffects, List.foldl_cons, List.sum_cons, add_assoc]

/-- Folding any in-window main-phase step list, provided the entry
progress is already in the recomputed `min(1, t/5)` form. -/
theorem playRun_run2 : ∀ (M : List Q) (pose pose0 : String) (tm prog ltt : Q)
    (cur : Stats) (now tsc : Q), prog = min 1 (tm / 5) → stepsOk tm 5 M →
    M.foldl Sys.update (playRunSys pose pose0 "playing" tm prog ltt cur now tsc)
      = playRunSys pose pose0 "playing" (tm + M.sum) (min 1 ((tm + M.sum) / 5))
          ltt (iterEffects cur M) (now + M.sum) tsc := by
  intro M
  induction M with
  | nil =>
      intro pose pose0 tm prog ltt cur now tsc hprog _
      rw [hprog]
      simp [iterEffects]
  | cons a rest ih =>
      intro pose pose0 tm prog ltt cur now tsc hprog hok
      obtain ⟨hpos, hlt, hrest⟩ := hok
      rw [List.foldl_cons, hprog,
        playRun_step2 pose pose0 tm (min 1 (tm / 5)) ltt cur now tsc a hlt,
        ih pose pose0 (tm + a) (min 1 ((tm + a) / 5)) ltt
          (applyStatEffects playingSpec cur a) (now + a) tsc rfl hrest]
      simp [iterEffects, List.foldl_cons, List.sum_cons, add_assoc]

/-- Folding any in-window tired-phase step list. -/
theorem playRun_run3 : ∀ (M : List Q) (pose pose0 : String) (tm prog ltt : Q)
    (cur : Stats) (now tsc : Q), stepsOk tm 1 M →
    M.foldl Sys.update (playRunSys pose pose0 "tired" tm prog ltt cur now tsc)
      = playRunSys pose pose0 "tired" (tm + M.sum) prog ltt
          (iterEffects cur M) (now + M.sum) tsc := by
  intro M
  induction M with
  | nil =>
      intro pose pose0 tm prog ltt cur now tsc _
      simp [iterEffects]
  | cons a rest ih =>
      intro pose pose0 tm prog ltt cur now tsc hok
      obtain ⟨hpos, hlt, hrest⟩ := hok
      rw [List.foldl_cons,
        playRun_step3 pose pose0 tm prog ltt cur now tsc a hlt,
        ih pose pose0 (tm + a) prog ltt (applyStatEffects playingSpec cur a)
          (now + a) tsc hrest]
      simp [iterEffects, List.foldl_cons, List.sum_cons, add_assoc]

/-- C6: for every playing run from start to natural completion whose
`update(dt)` steps are positive and align with the phase boundaries
(summing to 1 s of excited, 5 s of playing, 1 s of tired), with the four
touched stats starting in ranges where no clamp saturates, the final
stat store shows playfulness decreased by exactly 2·7 + 25·1 = 39,
fulfillment increased by exactly 10, the pet's pose restored to the pose
snapshotted at start, and the playing instance inactive. -/
theorem playing_aligned_run_totals
    (pose0 : String) (hpose : pose0 ≠ "")
    (p0 e0 q0 f0 ltt now tsc : Q) (cur0 : Stats)
    (hstats : PlayStats p0 e0 q0 f0 0 cur0)
    (hb : 39 ≤ p0 ∧ p0 ≤ 100 ∧ 7/2 ≤ e0 ∧ e0 ≤ 100 ∧
      0 ≤ q0 ∧ q0 ≤ 93 ∧ 0 ≤ f0 ∧ f0 ≤ 90)
    (M1 M2 M3 : List Q) (a1 a2 a3 : Q)
    (h1 : stepsOk 0 1 M1) (ha1 : 0 < a1) (hs1 : M1.sum + a1 = 1)
    (h2 : stepsOk 0 5 M2) (ha2 : 0 < a2) (hs2 : M2.sum + a2 = 5)
    (h3 : stepsOk 0 1 M3) (ha3 : 0 < a3) (hs3 : M3.sum + a3 = 1) :
    ∀ sF, sF = (M1 ++ a1 :: (M2 ++ a2 :: (M3 ++ [a3]))).foldl Sys.update
        (playRunSys "sitting.side.happy" pose0 "excited" 0 0 ltt cur0 now tsc) →
      (∀ d, getStat sF.ctx.stats "playfulness" d = p0 - 39) ∧
        (∀ d, getStat sF.ctx.stats "fulfillment" d = f0 + 10) ∧
        sF.pose = pose0 ∧
        sF.behaviors[4]?.map (fun b => b.st.active) = some false := by
  intro sF hsF
  have hpos1 := stepsOk_pos h1
  have hpos2 := stepsOk_pos h2
  have hpos3 := stepsOk_pos h3
  have hn1 : 0 ≤ M1.sum := List.sum_nonneg (fun x hx => le_of_lt (hpos1 x hx))
  have hn2 : 0 ≤ M2.sum := List.sum_nonneg (fun x hx => le_of_lt (hpos2 x hx))
  have hn3 : 0 ≤ M3.sum := List.sum_nonneg (fun x hx => le_of_lt (hpos3 x hx))
  subst hsF
  rw [List.foldl_append,
    playRun_run1 M1 _ _ _ _ _ _ _ _ h1,
    List.foldl_cons,
    playRun_trans1 _ pose0 (0 + M1.sum) _ _ _ _ _ a1 (by rw [zero_add, hs1]),
    List.foldl_append,
    playRun_run2 M2 _ _ 0 0 _ _ _ _ (by norm_num [min_def]) h2,
    List.foldl_cons,
    playRun_trans2 _ pose0 (0 + M2.sum) _ _ _ _ _ a2 (by rw [zero_add, hs2]),
    List.foldl_append,
    playRun_run3 M3 _ _ 0 _ _ _ _ _ h3,
    List.foldl_cons, List.foldl_nil,
    playRun_final _ pose0 (0 + M3.sum) _ _ _ _ _ a3
      (by rw [zero_add, hs3]) hpose]
  have hprog5 : min 1 ((0 + M2.sum + a2) / 5) = 1 := by
    rw [zero_add, hs2]; norm_num
  rw [hprog5]
  have hst1 : PlayStats p0 e0 q0 f0 (0 + M1.sum) (iterEffects cur0 M1) :=
    playStats_run hb M1 hpos1 0 cur0 le_rfl (by linarith) hstats
  have hst2 : PlayStats p0 e0 q0 f0 (0 + M1.sum + a1)
      (applyStatEffects playingSpec (iterEffects cur0 M1) a1) :=
    playStats_step hst1 hb (by linarith) ha1 (by linarith)
  have hst3 : PlayStats p0 e0 q0 f0 (0 + M1.sum + a1 + M2.sum)
      (iterEffects (applyStatEffects playingSpec (iterEffects cur0 M1) a1) M2) :=
    playStats_run hb M2 hpos2 (0 + M1.sum + a1) _ (by linarith) (by linarith) hst2
  have hst4 : PlayStats p0 e0 q0 f0 (0 + M1.sum + a1 + M2.sum + a2)
      (applyStatEffects playingSpec
        (iterEffects (applyStatEffects playingSpec (iterEffects cur0 M1) a1) M2)
        a2) :=
    playStats_step hst3 hb (by linarith) ha2 (by linarith)
  have hst5 : PlayStats p0 e0 q0 f0 (0 + M1.sum + a1 + M2.sum + a2 + M3.sum)
      (iterEffects (applyStatEffects playingSpec
        (iterEffects (applyStatEffects playingSpec (iterEffects cur0 M1) a1) M2)
        a2) M3) :=
    playStats_run hb M3 hpos3 (0 + M1.sum + a1 + M2.sum + a2) _
      (by linarith) (by linarith) hst4
  have hT5 : 0 + M1.sum + a1 + M2.sum + a2 + M3.sum = 7 - a3 := by linarith
  rw [hT5] at hst5
  obtain ⟨hP, hF⟩ := playStats_finish hst5 hb ha3 (by linarith)
  refine ⟨fun d => ?_, fun d => ?_, ?_, ?_⟩
  · simp only [mgrSys]
    exact hP d
  · simp only [mgrSys]
    exact hF d
  · simp [mgrSys]
  · norm_num +decide [mgrSys]

/-- Witness for C6: the run with steps 1 ∣ 2,2,1 ∣ 1 from playfulness 80,
energy 50, stimulation 10, fulfillment 0. -/
theorem playing_aligned_run_totals_witness :
    getStat (([] ++ (1:Q) :: ([2, 2] ++ (1:Q) :: ([] ++ [(1:Q)]))).foldl
        Sys.update (playRunSys "sitting.side.happy" "standing.side.neutral"
          "excited" 0 0 0
          [("playfulness", 80), ("energy", 50), ("stimulation", 10),
            ("fulfillment", 0)] 0 0)).ctx.stats "playfulness" 0 = 80 - 39 ∧
      getStat (([] ++ (1:Q) :: ([2, 2] ++ (1:Q) :: ([] ++ [(1:Q)]))).foldl
        Sys.update (playRunSys "sitting.side.happy" "standing.side.neutral"
          "excited" 0 0 0
          [("playfulness", 80), ("energy", 50), ("stimulation", 10),
            ("fulfillment", 0)] 0 0)).ctx.stats "fulfillment" 0 = 0 + 10 ∧
      (([] ++ (1:Q) :: ([2, 2] ++ (1:Q) :: ([] ++ [(1:Q)]))).foldl
        Sys.update (playRunSys "sitting.side.happy" "standing.side.neutral"
          "excited" 0 0 0
          [("playfulness", 80), ("energy", 50), ("stimulation", 10),
            ("fulfillment", 0)] 0 0)).pose = "standing.side.neutral" ∧
      ((([] ++ (1:Q) :: ([2, 2] ++ (1:Q) :: ([] ++ [(1:Q)]))).foldl
        Sys.update (playRunSys "sitting.side.happy" "standing.side.neutral"
          "excited" 0 0 0
          [("playfulness", 80), ("energy", 50), ("stimulation", 10),
            ("fulfillment", 0)] 0 0)).behaviors[4]?.map
          (fun b => b.st.active)) = some false := by
  have h := playing_aligned_run_totals "standing.side.neutral" (by decide)
    80 50 10 0 0 0 0
    [("playfulness", 80), ("energy", 50), ("stimulation", 10),
      ("fulfillment", 0)]
    (by refine ⟨fun d => ?_, fun d => ?_, fun d => ?_, fun d => ?_⟩ <;>
      norm_num +decide [getStat])
    (by norm_num) [] [2, 2] [] 1 1 1
    trivial (by norm_num) (by norm_num)
    (by norm_num [stepsOk]) (by norm_num) (by norm_num)
    trivial (by norm_num) (by norm_num) _ rfl
  exact ⟨h.1 0, h.2.1 0, h.2.2.1, h.2.2.2⟩

end Catode
